import Mathlib

/-!
Verification of the `ct-aes` constant-time AES library against its
natural-language specification.

The development shallowly embeds the Rust sources:
machine words (`u16`/`u32`/`u64`) become `Nat` with explicit `% 2 ^ w`
truncation wherever the Rust operation wraps, byte buffers become
`List Nat` with every element `< 256`, and fallible operations return
`Option`.  Definitions follow the source files:

* `src/util.rs`           : `bitmask`
* `src/bitslice/primitive.rs` : `SWAP_MOVE_MASK`, `swap_move`,
  `to_bitslice_order` / `to_byte_order` for the three word widths,
  bit-sliced `ShiftRows` and `MixColumns`
* `src/bitslice/bitslice.rs`  : `Bitslice` constants, `RoundKey`
* `src/bitslice/sbox.rs`      : the 113- and 121-gate S-box circuits
* `src/bitslice/key.rs`       : bit-sliced key expansion
* `src/aes/block.rs`, `src/aes/simple.rs`, `src/aes/ops.rs`,
  `src/aes/key.rs` : the reference backend
* `gf256/src/lib.rs`, `gf256/src/symbolic.rs` : GF(2^8) arithmetic
-/

namespace CtAes

set_option maxRecDepth 100000

/-! ## Generic Nat-as-machine-word helper lemmas -/

/-- XOR distributes over logical right shift (bitwise argument). -/
theorem shiftRight_xor (a b n : Nat) :
    (a ^^^ b) >>> n = (a >>> n) ^^^ (b >>> n) := by
  apply Nat.eq_of_testBit_eq
  intro i
  simp [Nat.testBit_xor, Nat.testBit_shiftRight]

/-- Cancellation: `(a ^^^ t) ^^^ (b ^^^ t) = a ^^^ b`. -/
theorem xor_xor_cancel (a t b : Nat) : (a ^^^ t) ^^^ (b ^^^ t) = a ^^^ b := by
  apply Nat.eq_of_testBit_eq
  intro i
  simp only [Nat.testBit_xor]
  cases a.testBit i <;> cases t.testBit i <;> cases b.testBit i <;> rfl

/-- Bits above the width of a bounded value are clear. -/
theorem testBit_eq_false_of_lt {x w i : Nat} (h : x < 2 ^ w) (hi : w ≤ i) :
    x.testBit i = false := by
  apply Nat.testBit_lt_two_pow
  calc x < 2 ^ w := h
    _ ≤ 2 ^ i := Nat.pow_le_pow_right (by omega) hi

/-! ## `src/util.rs`: `bitmask`

`bitmask(kernel, shift)` repeats the `u64` kernel every `shift` bits,
OR-ing `kernel << ((mul * shift) % 64)` for `mul = 0 .. 63`; each `u64`
shift truncates to 64 bits. -/

def bitmask (kernel shift : Nat) : Nat :=
  (List.range 64).foldl
    (fun acc mul => acc ||| ((kernel <<< ((mul * shift) % 64)) % 2 ^ 64)) 0

/-! ## `src/bitslice/primitive.rs`: `SWAP_MOVE_MASK` and `swap_move` -/

def SWAP_MOVE_MASK : List Nat :=
  [ bitmask 0b01010101 8
  , bitmask 0b00110011 8
  , bitmask 0b00001111 8
  , bitmask 0x00ff00ff 32
  , bitmask 0x0000ffff 32
  , 0xffffffff ]

/-- Core of `SwapMove::swap_move` with the window size `n = 2 ^ log2_n`
and the (width-truncated) mask passed explicitly.  Width `w` is the bit
width of the machine word `$T`.  `tmp = ((lo >> n) ^ hi) & mask`;
the result is `(lo ^ (tmp << n), hi ^ tmp)` with the left shift
truncated to `w` bits as in Rust. -/
def swapMoveCore (w n mask lo hi : Nat) : Nat × Nat :=
  (lo ^^^ (((((lo >>> n) ^^^ hi) &&& mask) <<< n) % 2 ^ w),
   hi ^^^ (((lo >>> n) ^^^ hi) &&& mask))

/-- `SwapMove::swap_move` for the width-`w` instantiation of the
`primitive!` macro: `mask = SWAP_MOVE_MASK[log2_n] as $T`. -/
def swapMove (w lo hi log2n : Nat) : Nat × Nat :=
  swapMoveCore w (2 ^ log2n) ((SWAP_MOVE_MASK.getD log2n 0) % 2 ^ w) lo hi

theorem swapMoveCore_fst_lt {w n mask lo hi : Nat}
    (hlo : lo < 2 ^ w) :
    (swapMoveCore w n mask lo hi).1 < 2 ^ w := by
  exact Nat.xor_lt_two_pow hlo (Nat.mod_lt _ (Nat.pow_pos (by omega)))

theorem swapMoveCore_snd_lt {w n mask lo hi : Nat}
    (hhi : hi < 2 ^ w) (hmask : mask < 2 ^ w) :
    (swapMoveCore w n mask lo hi).2 < 2 ^ w := by
  exact Nat.xor_lt_two_pow hhi (Nat.lt_of_le_of_lt Nat.and_le_right hmask)

/-- Applying `swap_move` twice with the same window and mask restores
both words, provided the mask fits below the top `n` bits. -/
theorem swapMoveCore_cancel (w n mask lo hi : Nat)
    (hn : n ≤ w) (hmask : mask < 2 ^ (w - n)) :
    swapMoveCore w n mask (swapMoveCore w n mask lo hi).1
      (swapMoveCore w n mask lo hi).2 = (lo, hi) := by
  simp only [swapMoveCore, Prod.mk.injEq]
  set tmp := ((lo >>> n) ^^^ hi) &&& mask with htmpdef
  have htmp_lt : tmp < 2 ^ (w - n) :=
    Nat.lt_of_le_of_lt Nat.and_le_right hmask
  have hshift_lt : tmp <<< n < 2 ^ w := by
    rw [Nat.shiftLeft_eq]
    calc tmp * 2 ^ n < 2 ^ (w - n) * 2 ^ n :=
          mul_lt_mul_of_pos_right htmp_lt (Nat.pow_pos (by omega))
      _ = 2 ^ w := by rw [← Nat.pow_add, Nat.sub_add_cancel hn]
  have hmod : (tmp <<< n) % 2 ^ w = tmp <<< n := Nat.mod_eq_of_lt hshift_lt
  have hback : (tmp <<< n) >>> n = tmp := by
    rw [Nat.shiftLeft_eq, Nat.shiftRight_eq_div_pow]
    exact Nat.mul_div_cancel tmp (Nat.pow_pos (by omega))
  rw [hmod]
  have hT : (((lo ^^^ tmp <<< n) >>> n) ^^^ (hi ^^^ tmp)) &&& mask = tmp := by
    rw [shiftRight_xor, hback, xor_xor_cancel]
  rw [hT, hmod]
  constructor
  · rw [Nat.xor_assoc, Nat.xor_self, Nat.xor_zero]
  · rw [Nat.xor_assoc, Nat.xor_self, Nat.xor_zero]

/-- C5: for every word width in `{u16, u32, u64}` and every pair of words,
applying `swap_move` twice with the same valid `log2_n` restores both
inputs (`SwapMove` is an involution). -/
theorem swap_move_involution (w lo hi log2n : Nat)
    (hw : w = 16 ∨ w = 32 ∨ w = 64) (hlog : log2n ≤ 5)
    (hn : 2 ^ log2n < w) :
    swapMove w (swapMove w lo hi log2n).1 (swapMove w lo hi log2n).2 log2n
      = (lo, hi) := by
  simp only [swapMove]
  rcases hw with rfl | rfl | rfl <;> interval_cases log2n <;>
    first
      | exact swapMoveCore_cancel _ _ _ _ _ (by decide) (by decide)
      | exact absurd hn (by decide)

theorem swap_move_involution_witness :
    (64 = 16 ∨ 64 = 32 ∨ 64 = 64) ∧ 5 ≤ 5 ∧ 2 ^ 5 < 64 ∧
    swapMove 64 (swapMove 64 3735928559 305419896 5).1
      (swapMove 64 3735928559 305419896 5).2 5 = (3735928559, 305419896) :=
  ⟨by decide, by decide, by decide,
   swap_move_involution 64 3735928559 305419896 5 (by decide) (by decide)
     (by decide)⟩

/-! ## `src/bitslice/bitslice.rs`: the `Bitslice` state

A `Bitslice<W>` is eight machine words; word `i` stores bit `i` of every
byte.  We represent the eight words as a structure of eight `Nat`s
(each `< 2 ^ w` for the width-`w` instantiation). -/

structure W8 where
  w0 : Nat
  w1 : Nat
  w2 : Nat
  w3 : Nat
  w4 : Nat
  w5 : Nat
  w6 : Nat
  w7 : Nat
deriving DecidableEq, Repr

def W8.Bounded (w : Nat) (s : W8) : Prop :=
  s.w0 < 2 ^ w ∧ s.w1 < 2 ^ w ∧ s.w2 < 2 ^ w ∧ s.w3 < 2 ^ w ∧
  s.w4 < 2 ^ w ∧ s.w5 < 2 ^ w ∧ s.w6 < 2 ^ w ∧ s.w7 < 2 ^ w

instance (w : Nat) (s : W8) : Decidable (s.Bounded w) := by
  unfold W8.Bounded; infer_instance

/-- `apply_stride_1`: applies `f` to word pairs `(0,1) (2,3) (4,5) (6,7)`. -/
def applyStride1 (f : Nat → Nat → Nat × Nat) (s : W8) : W8 :=
  ⟨(f s.w0 s.w1).1, (f s.w0 s.w1).2, (f s.w2 s.w3).1, (f s.w2 s.w3).2,
   (f s.w4 s.w5).1, (f s.w4 s.w5).2, (f s.w6 s.w7).1, (f s.w6 s.w7).2⟩

/-- `apply_stride_2`: applies `f` to word pairs `(0,2) (1,3) (4,6) (5,7)`. -/
def applyStride2 (f : Nat → Nat → Nat × Nat) (s : W8) : W8 :=
  ⟨(f s.w0 s.w2).1, (f s.w1 s.w3).1, (f s.w0 s.w2).2, (f s.w1 s.w3).2,
   (f s.w4 s.w6).1, (f s.w5 s.w7).1, (f s.w4 s.w6).2, (f s.w5 s.w7).2⟩

/-- `apply_stride_4`: applies `f` to word pairs `(0,4) (1,5) (2,6) (3,7)`. -/
def applyStride4 (f : Nat → Nat → Nat × Nat) (s : W8) : W8 :=
  ⟨(f s.w0 s.w4).1, (f s.w1 s.w5).1, (f s.w2 s.w6).1, (f s.w3 s.w7).1,
   (f s.w0 s.w4).2, (f s.w1 s.w5).2, (f s.w2 s.w6).2, (f s.w3 s.w7).2⟩

/-- `bs.swap(1, 4)` on the word array. -/
def swapW14 (s : W8) : W8 := ⟨s.w0, s.w4, s.w2, s.w3, s.w1, s.w5, s.w6, s.w7⟩

/-- `bs.swap(3, 6)` on the word array. -/
def swapW36 (s : W8) : W8 := ⟨s.w0, s.w1, s.w2, s.w6, s.w4, s.w5, s.w3, s.w7⟩

/-- `bs.swap(1, 2)` on the word array. -/
def swapW12 (s : W8) : W8 := ⟨s.w0, s.w2, s.w1, s.w3, s.w4, s.w5, s.w6, s.w7⟩

/-- `bs.swap(5, 6)` on the word array. -/
def swapW56 (s : W8) : W8 := ⟨s.w0, s.w1, s.w2, s.w3, s.w4, s.w6, s.w5, s.w7⟩

/-- `bs.swap(2, 4)` on the word array. -/
def swapW24 (s : W8) : W8 := ⟨s.w0, s.w1, s.w4, s.w3, s.w2, s.w5, s.w6, s.w7⟩

/-- `bs.swap(3, 5)` on the word array. -/
def swapW35 (s : W8) : W8 := ⟨s.w0, s.w1, s.w2, s.w5, s.w4, s.w3, s.w6, s.w7⟩

/-- Shorthand for a stride step using `swap_move` at width `w`. -/
def sm (w log2n : Nat) : Nat → Nat → Nat × Nat :=
  fun a b => swapMove w a b log2n

/-- `<u64 as BitsliceRepr>::to_bitslice_order`. -/
def toBitsliceOrder64 (s : W8) : W8 :=
  applyStride1 (sm 64 0) <| applyStride2 (sm 64 1) <| applyStride4 (sm 64 2) <|
  swapW56 <| swapW12 <| swapW36 <| swapW14 <|
  applyStride1 (sm 64 5) <| applyStride1 (sm 64 4) <| applyStride1 (sm 64 3) s

/-- `<u64 as BitsliceRepr>::to_byte_order` (the reversed involution list). -/
def toByteOrder64 (s : W8) : W8 :=
  applyStride1 (sm 64 3) <| applyStride1 (sm 64 4) <| applyStride1 (sm 64 5) <|
  swapW14 <| swapW36 <| swapW12 <| swapW56 <|
  applyStride4 (sm 64 2) <| applyStride2 (sm 64 1) <| applyStride1 (sm 64 0) s

/-- `<u32 as BitsliceRepr>::to_bitslice_order`. -/
def toBitsliceOrder32 (s : W8) : W8 :=
  applyStride4 (sm 32 2) <| applyStride2 (sm 32 1) <| applyStride1 (sm 32 0) <|
  swapW56 <| swapW12 <| swapW35 <| swapW24 s

/-- `<u32 as BitsliceRepr>::to_byte_order`. -/
def toByteOrder32 (s : W8) : W8 :=
  swapW24 <| swapW35 <| swapW12 <| swapW56 <|
  applyStride1 (sm 32 0) <| applyStride2 (sm 32 1) <| applyStride4 (sm 32 2) s

/-- `<u16 as BitsliceRepr>::to_bitslice_order`. -/
def toBitsliceOrder16 (s : W8) : W8 :=
  applyStride1 (sm 16 0) <| applyStride2 (sm 16 1) <| applyStride4 (sm 16 2) <|
  swapW35 <| swapW24 <| swapW56 <| swapW12 <|
  applyStride1 (sm 16 3) s

/-- `<u16 as BitsliceRepr>::to_byte_order`. -/
def toByteOrder16 (s : W8) : W8 :=
  applyStride1 (sm 16 3) <|
  swapW12 <| swapW56 <| swapW24 <| swapW35 <|
  applyStride4 (sm 16 2) <| applyStride2 (sm 16 1) <| applyStride1 (sm 16 0) s

/-- Swap-move at a fixed width and window cancels itself (pair form). -/
theorem sm_cancel (w k : Nat) (hn : 2 ^ k ≤ w)
    (hmask : SWAP_MOVE_MASK.getD k 0 % 2 ^ w < 2 ^ (w - 2 ^ k)) :
    ∀ a b, sm w k (sm w k a b).1 (sm w k a b).2 = (a, b) := by
  intro a b
  exact swapMoveCore_cancel w (2 ^ k) _ a b hn hmask

theorem applyStride1_cancel (f g : Nat → Nat → Nat × Nat)
    (h : ∀ a b, g (f a b).1 (f a b).2 = (a, b)) (s : W8) :
    applyStride1 g (applyStride1 f s) = s := by
  simp [applyStride1, h]

theorem applyStride2_cancel (f g : Nat → Nat → Nat × Nat)
    (h : ∀ a b, g (f a b).1 (f a b).2 = (a, b)) (s : W8) :
    applyStride2 g (applyStride2 f s) = s := by
  simp [applyStride2, h]

theorem applyStride4_cancel (f g : Nat → Nat → Nat × Nat)
    (h : ∀ a b, g (f a b).1 (f a b).2 = (a, b)) (s : W8) :
    applyStride4 g (applyStride4 f s) = s := by
  simp [applyStride4, h]

/-- Unpacking after packing at width 64 is the identity on the eight words. -/
theorem toByteOrder64_toBitsliceOrder64 (s : W8) :
    toByteOrder64 (toBitsliceOrder64 s) = s := by
  unfold toByteOrder64 toBitsliceOrder64
  rw [applyStride1_cancel _ _ (sm_cancel 64 0 (by decide) (by decide)),
      applyStride2_cancel _ _ (sm_cancel 64 1 (by decide) (by decide)),
      applyStride4_cancel _ _ (sm_cancel 64 2 (by decide) (by decide)),
      show ∀ t, swapW56 (swapW56 t) = t from fun _ => rfl,
      show ∀ t, swapW12 (swapW12 t) = t from fun _ => rfl,
      show ∀ t, swapW36 (swapW36 t) = t from fun _ => rfl,
      show ∀ t, swapW14 (swapW14 t) = t from fun _ => rfl,
      applyStride1_cancel _ _ (sm_cancel 64 5 (by decide) (by decide)),
      applyStride1_cancel _ _ (sm_cancel 64 4 (by decide) (by decide)),
      applyStride1_cancel _ _ (sm_cancel 64 3 (by decide) (by decide))]

/-- Unpacking after packing at width 32 is the identity on the eight words. -/
theorem toByteOrder32_toBitsliceOrder32 (s : W8) :
    toByteOrder32 (toBitsliceOrder32 s) = s := by
  unfold toByteOrder32 toBitsliceOrder32
  rw [applyStride4_cancel _ _ (sm_cancel 32 2 (by decide) (by decide)),
      applyStride2_cancel _ _ (sm_cancel 32 1 (by decide) (by decide)),
      applyStride1_cancel _ _ (sm_cancel 32 0 (by decide) (by decide)),
      show ∀ t, swapW56 (swapW56 t) = t from fun _ => rfl,
      show ∀ t, swapW12 (swapW12 t) = t from fun _ => rfl,
      show ∀ t, swapW35 (swapW35 t) = t from fun _ => rfl,
      show ∀ t, swapW24 (swapW24 t) = t from fun _ => rfl]

/-- Unpacking after packing at width 16 is the identity on the eight words. -/
theorem toByteOrder16_toBitsliceOrder16 (s : W8) :
    toByteOrder16 (toBitsliceOrder16 s) = s := by
  unfold toByteOrder16 toBitsliceOrder16
  rw [applyStride1_cancel _ _ (sm_cancel 16 0 (by decide) (by decide)),
      applyStride2_cancel _ _ (sm_cancel 16 1 (by decide) (by decide)),
      applyStride4_cancel _ _ (sm_cancel 16 2 (by decide) (by decide)),
      show ∀ t, swapW35 (swapW35 t) = t from fun _ => rfl,
      show ∀ t, swapW24 (swapW24 t) = t from fun _ => rfl,
      show ∀ t, swapW56 (swapW56 t) = t from fun _ => rfl,
      show ∀ t, swapW12 (swapW12 t) = t from fun _ => rfl,
      applyStride1_cancel _ _ (sm_cancel 16 3 (by decide) (by decide))]

/-! ## Byte/word conversions (`From<[u8; $len]>` impls)

`from_le_bytes` assembles a word from bytes little-endian;
`to_le_bytes` serializes it back.  A width-`w` batch is `w` bytes
(`8 * size_of::<W>()`), loaded as eight little-endian words. -/

def leWord (l : List Nat) : Nat := l.foldr (fun b acc => b + 256 * acc) 0

def leBytes : Nat → Nat → List Nat
  | 0, _ => []
  | nb + 1, x => x % 256 :: leBytes nb (x >>> 8)

def load64 (b : List Nat) : W8 :=
  ⟨leWord (b.take 8), leWord ((b.drop 8).take 8), leWord ((b.drop 16).take 8),
   leWord ((b.drop 24).take 8), leWord ((b.drop 32).take 8),
   leWord ((b.drop 40).take 8), leWord ((b.drop 48).take 8),
   leWord ((b.drop 56).take 8)⟩

def store64 (s : W8) : List Nat :=
  leBytes 8 s.w0 ++ (leBytes 8 s.w1 ++ (leBytes 8 s.w2 ++ (leBytes 8 s.w3 ++
  (leBytes 8 s.w4 ++ (leBytes 8 s.w5 ++ (leBytes 8 s.w6 ++ leBytes 8 s.w7))))))

def load32 (b : List Nat) : W8 :=
  ⟨leWord (b.take 4), leWord ((b.drop 4).take 4), leWord ((b.drop 8).take 4),
   leWord ((b.drop 12).take 4), leWord ((b.drop 16).take 4),
   leWord ((b.drop 20).take 4), leWord ((b.drop 24).take 4),
   leWord ((b.drop 28).take 4)⟩

def store32 (s : W8) : List Nat :=
  leBytes 4 s.w0 ++ (leBytes 4 s.w1 ++ (leBytes 4 s.w2 ++ (leBytes 4 s.w3 ++
  (leBytes 4 s.w4 ++ (leBytes 4 s.w5 ++ (leBytes 4 s.w6 ++ leBytes 4 s.w7))))))

def load16 (b : List Nat) : W8 :=
  ⟨leWord (b.take 2), leWord ((b.drop 2).take 2), leWord ((b.drop 4).take 2),
   leWord ((b.drop 6).take 2), leWord ((b.drop 8).take 2),
   leWord ((b.drop 10).take 2), leWord ((b.drop 12).take 2),
   leWord ((b.drop 14).take 2)⟩

def store16 (s : W8) : List Nat :=
  leBytes 2 s.w0 ++ (leBytes 2 s.w1 ++ (leBytes 2 s.w2 ++ (leBytes 2 s.w3 ++
  (leBytes 2 s.w4 ++ (leBytes 2 s.w5 ++ (leBytes 2 s.w6 ++ leBytes 2 s.w7))))))

/-- `From<[u8; $len]> for Bitslice<$T>`: little-endian word loads
followed by the bit transpose, per word width. -/
def bitsliceFromBytes (w : Nat) (b : List Nat) : W8 :=
  if w = 16 then toBitsliceOrder16 (load16 b)
  else if w = 32 then toBitsliceOrder32 (load32 b)
  else toBitsliceOrder64 (load64 b)

/-- `From<Bitslice<$T>> for [u8; $len]`: the inverse bit transpose
followed by little-endian word stores, per word width. -/
def bitsliceIntoBytes (w : Nat) (s : W8) : List Nat :=
  if w = 16 then store16 (toByteOrder16 s)
  else if w = 32 then store32 (toByteOrder32 s)
  else store64 (toByteOrder64 s)

theorem leBytes_leWord (l : List Nat) (hb : ∀ x ∈ l, x < 256) :
    leBytes l.length (leWord l) = l := by
  induction l with
  | nil => rfl
  | cons b t ih =>
    have hblt : b < 256 := hb b (by simp)
    have ht : ∀ x ∈ t, x < 256 := fun x hx => hb x (by simp [hx])
    have hmod : (b + 256 * leWord t) % 256 = b := by omega
    have hdiv : (b + 256 * leWord t) >>> 8 = leWord t := by
      rw [Nat.shiftRight_eq_div_pow]
      show (b + 256 * leWord t) / 256 = leWord t
      omega
    have hw : leWord (b :: t) = b + 256 * leWord t := rfl
    show leBytes (t.length + 1) (leWord (b :: t)) = b :: t
    rw [hw]
    simp only [leBytes]
    rw [hmod, hdiv, ih ht]

theorem leWord_lt (l : List Nat) (hb : ∀ x ∈ l, x < 256) :
    leWord l < 2 ^ (8 * l.length) := by
  induction l with
  | nil => simp [leWord]
  | cons b t ih =>
    have hblt : b < 256 := hb b (by simp)
    have ht := ih (fun x hx => hb x (by simp [hx]))
    show b + 256 * leWord t < 2 ^ (8 * (t.length + 1))
    have : 2 ^ (8 * (t.length + 1)) = 256 * 2 ^ (8 * t.length) := by
      rw [Nat.mul_add, Nat.pow_add]
      ring
    rw [this]
    have ht2 : leWord t < 2 ^ (8 * t.length) := ht
    calc b + 256 * leWord t < 256 * (leWord t + 1) := by omega
      _ ≤ 256 * 2 ^ (8 * t.length) := Nat.mul_le_mul_left 256 ht2

theorem chunk_roundtrip (b : List Nat) (hb : ∀ x ∈ b, x < 256)
    (k n : Nat) (hk : ((b.drop k).take n).length = n) :
    leBytes n (leWord ((b.drop k).take n)) = (b.drop k).take n := by
  have h2 : ∀ x ∈ (b.drop k).take n, x < 256 := fun x hx =>
    hb x (((List.take_sublist _ _).trans (List.drop_sublist _ _)).mem hx)
  have h := leBytes_leWord ((b.drop k).take n) h2
  rw [hk] at h
  exact h

theorem store64_load64 (b : List Nat) (hlen : b.length = 64)
    (hb : ∀ x ∈ b, x < 256) : store64 (load64 b) = b := by
  have hchunk : ∀ k, k + 8 ≤ 64 →
      leBytes 8 (leWord ((b.drop k).take 8)) = (b.drop k).take 8 := by
    intro k hk
    exact chunk_roundtrip b hb k 8 (by simp [hlen]; omega)
  have h0 : leBytes 8 (leWord (b.take 8)) = b.take 8 := by
    have := hchunk 0 (by omega)
    simpa using this
  show leBytes 8 (leWord (b.take 8)) ++ (leBytes 8 (leWord ((b.drop 8).take 8))
    ++ (leBytes 8 (leWord ((b.drop 16).take 8))
    ++ (leBytes 8 (leWord ((b.drop 24).take 8))
    ++ (leBytes 8 (leWord ((b.drop 32).take 8))
    ++ (leBytes 8 (leWord ((b.drop 40).take 8))
    ++ (leBytes 8 (leWord ((b.drop 48).take 8))
    ++ leBytes 8 (leWord ((b.drop 56).take 8)))))))) = b
  rw [h0, hchunk 8 (by omega), hchunk 16 (by omega), hchunk 24 (by omega),
      hchunk 32 (by omega), hchunk 40 (by omega), hchunk 48 (by omega),
      hchunk 56 (by omega)]
  rw [List.take_of_length_le (l := b.drop 56) (by simp [hlen]),
      show b.drop 56 = (b.drop 48).drop 8 from (List.drop_drop 8 48 b).symm,
      List.take_append_drop 8 (b.drop 48),
      show b.drop 48 = (b.drop 40).drop 8 from (List.drop_drop 8 40 b).symm,
      List.take_append_drop 8 (b.drop 40),
      show b.drop 40 = (b.drop 32).drop 8 from (List.drop_drop 8 32 b).symm,
      List.take_append_drop 8 (b.drop 32),
      show b.drop 32 = (b.drop 24).drop 8 from (List.drop_drop 8 24 b).symm,
      List.take_append_drop 8 (b.drop 24),
      show b.drop 24 = (b.drop 16).drop 8 from (List.drop_drop 8 16 b).symm,
      List.take_append_drop 8 (b.drop 16),
      show b.drop 16 = (b.drop 8).drop 8 from (List.drop_drop 8 8 b).symm,
      List.take_append_drop 8 (b.drop 8),
      List.take_append_drop 8 b]

theorem store32_load32 (b : List Nat) (hlen : b.length = 32)
    (hb : ∀ x ∈ b, x < 256) : store32 (load32 b) = b := by
  have hchunk : ∀ k, k + 4 ≤ 32 →
      leBytes 4 (leWord ((b.drop k).take 4)) = (b.drop k).take 4 := by
    intro k hk
    exact chunk_roundtrip b hb k 4 (by simp [hlen]; omega)
  have h0 : leBytes 4 (leWord (b.take 4)) = b.take 4 := by
    have := hchunk 0 (by omega)
    simpa using this
  show leBytes 4 (leWord (b.take 4)) ++ (leBytes 4 (leWord ((b.drop 4).take 4))
    ++ (leBytes 4 (leWord ((b.drop 8).take 4))
    ++ (leBytes 4 (leWord ((b.drop 12).take 4))
    ++ (leBytes 4 (leWord ((b.drop 16).take 4))
    ++ (leBytes 4 (leWord ((b.drop 20).take 4))
    ++ (leBytes 4 (leWord ((b.drop 24).take 4))
    ++ leBytes 4 (leWord ((b.drop 28).take 4)))))))) = b
  rw [h0, hchunk 4 (by omega), hchunk 8 (by omega), hchunk 12 (by omega),
      hchunk 16 (by omega), hchunk 20 (by omega), hchunk 24 (by omega),
      hchunk 28 (by omega)]
  rw [List.take_of_length_le (l := b.drop 28) (by simp [hlen]),
      show b.drop 28 = (b.drop 24).drop 4 from (List.drop_drop 4 24 b).symm,
      List.take_append_drop 4 (b.drop 24),
      show b.drop 24 = (b.drop 20).drop 4 from (List.drop_drop 4 20 b).symm,
      List.take_append_drop 4 (b.drop 20),
      show b.drop 20 = (b.drop 16).drop 4 from (List.drop_drop 4 16 b).symm,
      List.take_append_drop 4 (b.drop 16),
      show b.drop 16 = (b.drop 12).drop 4 from (List.drop_drop 4 12 b).symm,
      List.take_append_drop 4 (b.drop 12),
      show b.drop 12 = (b.drop 8).drop 4 from (List.drop_drop 4 8 b).symm,
      List.take_append_drop 4 (b.drop 8),
      show b.drop 8 = (b.drop 4).drop 4 from (List.drop_drop 4 4 b).symm,
      List.take_append_drop 4 (b.drop 4),
      List.take_append_drop 4 b]

theorem store16_load16 (b : List Nat) (hlen : b.length = 16)
    (hb : ∀ x ∈ b, x < 256) : store16 (load16 b) = b := by
  have hchunk : ∀ k, k + 2 ≤ 16 →
      leBytes 2 (leWord ((b.drop k).take 2)) = (b.drop k).take 2 := by
    intro k hk
    exact chunk_roundtrip b hb k 2 (by simp [hlen]; omega)
  have h0 : leBytes 2 (leWord (b.take 2)) = b.take 2 := by
    have := hchunk 0 (by omega)
    simpa using this
  show leBytes 2 (leWord (b.take 2)) ++ (leBytes 2 (leWord ((b.drop 2).take 2))
    ++ (leBytes 2 (leWord ((b.drop 4).take 2))
    ++ (leBytes 2 (leWord ((b.drop 6).take 2))
    ++ (leBytes 2 (leWord ((b.drop 8).take 2))
    ++ (leBytes 2 (leWord ((b.drop 10).take 2))
    ++ (leBytes 2 (leWord ((b.drop 12).take 2))
    ++ leBytes 2 (leWord ((b.drop 14).take 2)))))))) = b
  rw [h0, hchunk 2 (by omega), hchunk 4 (by omega), hchunk 6 (by omega),
      hchunk 8 (by omega), hchunk 10 (by omega), hchunk 12 (by omega),
      hchunk 14 (by omega)]
  rw [List.take_of_length_le (l := b.drop 14) (by simp [hlen]),
      show b.drop 14 = (b.drop 12).drop 2 from (List.drop_drop 2 12 b).symm,
      List.take_append_drop 2 (b.drop 12),
      show b.drop 12 = (b.drop 10).drop 2 from (List.drop_drop 2 10 b).symm,
      List.take_append_drop 2 (b.drop 10),
      show b.drop 10 = (b.drop 8).drop 2 from (List.drop_drop 2 8 b).symm,
      List.take_append_drop 2 (b.drop 8),
      show b.drop 8 = (b.drop 6).drop 2 from (List.drop_drop 2 6 b).symm,
      List.take_append_drop 2 (b.drop 6),
      show b.drop 6 = (b.drop 4).drop 2 from (List.drop_drop 2 4 b).symm,
      List.take_append_drop 2 (b.drop 4),
      show b.drop 4 = (b.drop 2).drop 2 from (List.drop_drop 2 2 b).symm,
      List.take_append_drop 2 (b.drop 2),
      List.take_append_drop 2 b]

/-- C4: for every word width `W ∈ {u16, u32, u64}` and every byte string
of exactly the batch size (`8 * size_of::<W>()` bytes), converting into a
`Bitslice<W>` and back into bytes returns the input unchanged. -/
theorem bitslice_pack_unpack_roundtrip (w : Nat)
    (hw : w = 16 ∨ w = 32 ∨ w = 64) (b : List Nat) (hlen : b.length = w)
    (hb : ∀ x ∈ b, x < 256) :
    bitsliceIntoBytes w (bitsliceFromBytes w b) = b := by
  rcases hw with rfl | rfl | rfl
  · show store16 (toByteOrder16 (toBitsliceOrder16 (load16 b))) = b
    rw [toByteOrder16_toBitsliceOrder16]
    exact store16_load16 b hlen hb
  · show store32 (toByteOrder32 (toBitsliceOrder32 (load32 b))) = b
    rw [toByteOrder32_toBitsliceOrder32]
    exact store32_load32 b hlen hb
  · show store64 (toByteOrder64 (toBitsliceOrder64 (load64 b))) = b
    rw [toByteOrder64_toBitsliceOrder64]
    exact store64_load64 b hlen hb

theorem bitslice_pack_unpack_roundtrip_witness :
    (16 = 16 ∨ 16 = 32 ∨ 16 = 64) ∧
    ([0, 1, 2, 3, 4, 5, 6, 7, 8, 9, 10, 11, 12, 13, 14, 15] : List Nat).length
      = 16 ∧
    bitsliceIntoBytes 16 (bitsliceFromBytes 16
      [0, 1, 2, 3, 4, 5, 6, 7, 8, 9, 10, 11, 12, 13, 14, 15])
      = [0, 1, 2, 3, 4, 5, 6, 7, 8, 9, 10, 11, 12, 13, 14, 15] :=
  ⟨by decide, by decide,
   bitslice_pack_unpack_roundtrip 16 (by decide)
     [0, 1, 2, 3, 4, 5, 6, 7, 8, 9, 10, 11, 12, 13, 14, 15] (by decide)
     (by decide)⟩

/-! ## `src/bitslice/sbox.rs`: the S-box boolean circuits

The two straight-line circuits are transcribed as gate programs: each
entry names the operation and the positions of its two operands in the
evaluation environment, counted from the most recently computed value
(the eight inputs `u7 .. u0`, i.e. words `0 .. 7` of the `Bitslice`,
are the initial environment with `u7` = word 0 in front).  `gxnor i j`
is the Rust expression `!(a ^ b)`. -/

inductive GateOp
  | gxor
  | gand
  | gxnor
deriving DecidableEq, Repr

def gateApply {α : Type} (fxor fand : α → α → α) (fnot : α → α)
    (dflt : α) (env : List α) : GateOp × Nat × Nat → α
  | (GateOp.gxor, i, j) => fxor (env.getD i dflt) (env.getD j dflt)
  | (GateOp.gand, i, j) => fand (env.getD i dflt) (env.getD j dflt)
  | (GateOp.gxnor, i, j) => fnot (fxor (env.getD i dflt) (env.getD j dflt))

def evalGates {α : Type} (fxor fand : α → α → α) (fnot : α → α) (dflt : α) :
    List (GateOp × Nat × Nat) → List α → List α
  | [], env => env
  | g :: prog, env =>
    evalGates fxor fand fnot dflt prog
      (gateApply fxor fand fnot dflt env g :: env)

def runCircuit {α : Type} (fxor fand : α → α → α) (fnot : α → α) (dflt : α)
    (prog : List (GateOp × Nat × Nat)) (outs : List Nat)
    (inputs : List α) : List α :=
  outs.map (fun i => (evalGates fxor fand fnot dflt prog inputs).getD i dflt)

def SBOX_PROG : List (GateOp × Nat × Nat) :=
  [ (GateOp.gxor, 4, 2)
  , (GateOp.gxor, 8, 2)
  , (GateOp.gxor, 9, 6)
  , (GateOp.gxor, 10, 5)
  , (GateOp.gxor, 10, 9)
  , (GateOp.gxor, 0, 5)
  , (GateOp.gxor, 0, 10)
  , (GateOp.gxor, 5, 6)
  , (GateOp.gxor, 2, 15)
  , (GateOp.gxor, 3, 10)
  , (GateOp.gxor, 0, 6)
  , (GateOp.gxor, 14, 3)
  , (GateOp.gxor, 0, 14)
  , (GateOp.gxor, 1, 19)
  , (GateOp.gxor, 1, 14)
  , (GateOp.gxor, 2, 10)
  , (GateOp.gxor, 2, 13)
  , (GateOp.gxor, 17, 0)
  , (GateOp.gxor, 2, 1)
  , (GateOp.gxor, 3, 15)
  , (GateOp.gxor, 15, 3)
  , (GateOp.gxor, 19, 0)
  , (GateOp.gxor, 29, 1)
  , (GateOp.gand, 15, 10)
  , (GateOp.gand, 13, 9)
  , (GateOp.gxor, 0, 1)
  , (GateOp.gand, 19, 26)
  , (GateOp.gxor, 0, 3)
  , (GateOp.gand, 26, 7)
  , (GateOp.gand, 19, 23)
  , (GateOp.gxor, 0, 1)
  , (GateOp.gand, 22, 13)
  , (GateOp.gxor, 0, 3)
  , (GateOp.gand, 30, 16)
  , (GateOp.gand, 33, 15)
  , (GateOp.gxor, 0, 1)
  , (GateOp.gand, 32, 20)
  , (GateOp.gxor, 0, 3)
  , (GateOp.gxor, 12, 24)
  , (GateOp.gxor, 11, 1)
  , (GateOp.gxor, 9, 4)
  , (GateOp.gxor, 8, 3)
  , (GateOp.gxor, 3, 6)
  , (GateOp.gxor, 3, 23)
  , (GateOp.gxor, 3, 22)
  , (GateOp.gxor, 3, 22)
  , (GateOp.gxor, 3, 2)
  , (GateOp.gand, 4, 2)
  , (GateOp.gxor, 2, 0)
  , (GateOp.gand, 2, 0)
  , (GateOp.gxor, 0, 6)
  , (GateOp.gxor, 6, 5)
  , (GateOp.gxor, 8, 4)
  , (GateOp.gand, 0, 1)
  , (GateOp.gxor, 0, 8)
  , (GateOp.gxor, 10, 0)
  , (GateOp.gxor, 7, 1)
  , (GateOp.gand, 11, 0)
  , (GateOp.gxor, 0, 2)
  , (GateOp.gxor, 10, 1)
  , (GateOp.gand, 9, 0)
  , (GateOp.gxor, 14, 0)
  , (GateOp.gxor, 0, 3)
  , (GateOp.gxor, 12, 8)
  , (GateOp.gxor, 13, 2)
  , (GateOp.gxor, 10, 6)
  , (GateOp.gxor, 2, 3)
  , (GateOp.gand, 1, 54)
  , (GateOp.gand, 9, 53)
  , (GateOp.gand, 14, 69)
  , (GateOp.gand, 5, 49)
  , (GateOp.gand, 9, 65)
  , (GateOp.gand, 21, 54)
  , (GateOp.gand, 9, 56)
  , (GateOp.gand, 7, 55)
  , (GateOp.gand, 12, 59)
  , (GateOp.gand, 10, 68)
  , (GateOp.gand, 18, 66)
  , (GateOp.gand, 23, 71)
  , (GateOp.gand, 14, 77)
  , (GateOp.gand, 18, 70)
  , (GateOp.gand, 30, 72)
  , (GateOp.gand, 18, 79)
  , (GateOp.gand, 16, 82)
  , (GateOp.gand, 21, 80)
  , (GateOp.gxor, 2, 1)
  , (GateOp.gxor, 8, 0)
  , (GateOp.gxor, 10, 0)
  , (GateOp.gxor, 20, 18)
  , (GateOp.gxor, 20, 21)
  , (GateOp.gxor, 19, 18)
  , (GateOp.gxor, 11, 2)
  , (GateOp.gxor, 17, 1)
  , (GateOp.gxor, 17, 1)
  , (GateOp.gxor, 1, 0)
  , (GateOp.gxor, 4, 5)
  , (GateOp.gxor, 25, 23)
  , (GateOp.gxor, 16, 11)
  , (GateOp.gxor, 9, 1)
  , (GateOp.gxor, 11, 3)
  , (GateOp.gxor, 26, 7)
  , (GateOp.gxor, 19, 6)
  , (GateOp.gxor, 4, 3)
  , (GateOp.gxnor, 23, 0)
  , (GateOp.gxor, 21, 3)
  , (GateOp.gxor, 18, 26)
  , (GateOp.gxor, 18, 5)
  , (GateOp.gxnor, 12, 4)
  , (GateOp.gxor, 9, 8)
  , (GateOp.gxnor, 9, 8)
  , (GateOp.gxor, 8, 5)
  , (GateOp.gxnor, 0, 26)
  , (GateOp.gxor, 6, 10) ]

def SBOX_OUT : List Nat := [9, 5, 0, 4, 13, 1, 3, 6]

def INV_SBOX_PROG : List (GateOp × Nat × Nat) :=
  [ (GateOp.gxor, 7, 4)
  , (GateOp.gxnor, 7, 5)
  , (GateOp.gxor, 9, 0)
  , (GateOp.gxor, 4, 3)
  , (GateOp.gxor, 2, 0)
  , (GateOp.gxnor, 10, 0)
  , (GateOp.gxor, 10, 9)
  , (GateOp.gxnor, 7, 0)
  , (GateOp.gxor, 3, 1)
  , (GateOp.gxnor, 16, 14)
  , (GateOp.gxor, 12, 0)
  , (GateOp.gxor, 10, 9)
  , (GateOp.gxor, 7, 3)
  , (GateOp.gxor, 10, 5)
  , (GateOp.gxor, 3, 8)
  , (GateOp.gxor, 14, 10)
  , (GateOp.gxor, 14, 7)
  , (GateOp.gxor, 4, 5)
  , (GateOp.gxor, 15, 7)
  , (GateOp.gxor, 11, 13)
  , (GateOp.gxor, 5, 6)
  , (GateOp.gxor, 8, 6)
  , (GateOp.gxor, 5, 2)
  , (GateOp.gxor, 14, 17)
  , (GateOp.gxor, 12, 10)
  , (GateOp.gand, 9, 6)
  , (GateOp.gand, 25, 23)
  , (GateOp.gxor, 5, 1)
  , (GateOp.gand, 23, 17)
  , (GateOp.gxor, 0, 3)
  , (GateOp.gand, 13, 10)
  , (GateOp.gand, 29, 23)
  , (GateOp.gxor, 9, 1)
  , (GateOp.gand, 24, 27)
  , (GateOp.gxor, 0, 3)
  , (GateOp.gand, 22, 20)
  , (GateOp.gand, 18, 15)
  , (GateOp.gxor, 0, 1)
  , (GateOp.gand, 26, 24)
  , (GateOp.gxor, 0, 3)
  , (GateOp.gxor, 12, 13)
  , (GateOp.gxor, 11, 16)
  , (GateOp.gxor, 9, 10)
  , (GateOp.gxor, 8, 3)
  , (GateOp.gxor, 3, 6)
  , (GateOp.gxor, 3, 5)
  , (GateOp.gxor, 3, 8)
  , (GateOp.gxor, 3, 23)
  , (GateOp.gxor, 1, 0)
  , (GateOp.gand, 2, 4)
  , (GateOp.gxor, 4, 0)
  , (GateOp.gxor, 6, 5)
  , (GateOp.gxor, 4, 2)
  , (GateOp.gand, 0, 1)
  , (GateOp.gand, 3, 5)
  , (GateOp.gxor, 7, 0)
  , (GateOp.gxor, 10, 2)
  , (GateOp.gand, 12, 9)
  , (GateOp.gand, 6, 0)
  , (GateOp.gxor, 7, 9)
  , (GateOp.gxor, 1, 0)
  , (GateOp.gand, 15, 14)
  , (GateOp.gand, 13, 0)
  , (GateOp.gxor, 14, 13)
  , (GateOp.gxor, 1, 0)
  , (GateOp.gxor, 4, 0)
  , (GateOp.gxor, 9, 10)
  , (GateOp.gxor, 10, 6)
  , (GateOp.gxor, 12, 3)
  , (GateOp.gxor, 2, 3)
  , (GateOp.gand, 1, 51)
  , (GateOp.gand, 6, 68)
  , (GateOp.gand, 16, 61)
  , (GateOp.gand, 5, 53)
  , (GateOp.gand, 13, 66)
  , (GateOp.gand, 18, 69)
  , (GateOp.gand, 9, 61)
  , (GateOp.gand, 7, 56)
  , (GateOp.gand, 12, 64)
  , (GateOp.gand, 10, 63)
  , (GateOp.gand, 15, 79)
  , (GateOp.gand, 25, 76)
  , (GateOp.gand, 14, 65)
  , (GateOp.gand, 22, 81)
  , (GateOp.gand, 27, 75)
  , (GateOp.gand, 18, 72)
  , (GateOp.gand, 16, 68)
  , (GateOp.gand, 21, 75)
  , (GateOp.gxor, 16, 17)
  , (GateOp.gxor, 16, 18)
  , (GateOp.gxor, 15, 16)
  , (GateOp.gxor, 15, 17)
  , (GateOp.gxor, 14, 15)
  , (GateOp.gxor, 14, 16)
  , (GateOp.gxor, 5, 1)
  , (GateOp.gxor, 5, 1)
  , (GateOp.gxor, 5, 3)
  , (GateOp.gxor, 5, 3)
  , (GateOp.gxor, 17, 18)
  , (GateOp.gxor, 17, 19)
  , (GateOp.gxor, 16, 17)
  , (GateOp.gxor, 16, 18)
  , (GateOp.gxor, 15, 16)
  , (GateOp.gxor, 15, 17)
  , (GateOp.gxor, 5, 1)
  , (GateOp.gxor, 5, 1)
  , (GateOp.gxor, 5, 3)
  , (GateOp.gxor, 5, 3)
  , (GateOp.gxor, 12, 1)
  , (GateOp.gxor, 12, 2)
  , (GateOp.gxor, 12, 3)
  , (GateOp.gxor, 16, 14)
  , (GateOp.gxor, 1, 0)
  , (GateOp.gxor, 8, 5)
  , (GateOp.gxor, 2, 0)
  , (GateOp.gxor, 6, 0)
  , (GateOp.gxor, 20, 10)
  , (GateOp.gxor, 2, 0)
  , (GateOp.gxor, 23, 13)
  , (GateOp.gxor, 6, 2)
  , (GateOp.gxor, 1, 0) ]

def INV_SBOX_OUT : List Nat := [15, 11, 8, 0, 12, 3, 5, 10]

def SBOX_TABLE : List Nat :=
  [ 0x63, 0x7c, 0x77, 0x7b, 0xf2, 0x6b, 0x6f, 0xc5
  , 0x30, 0x01, 0x67, 0x2b, 0xfe, 0xd7, 0xab, 0x76
  , 0xca, 0x82, 0xc9, 0x7d, 0xfa, 0x59, 0x47, 0xf0
  , 0xad, 0xd4, 0xa2, 0xaf, 0x9c, 0xa4, 0x72, 0xc0
  , 0xb7, 0xfd, 0x93, 0x26, 0x36, 0x3f, 0xf7, 0xcc
  , 0x34, 0xa5, 0xe5, 0xf1, 0x71, 0xd8, 0x31, 0x15
  , 0x04, 0xc7, 0x23, 0xc3, 0x18, 0x96, 0x05, 0x9a
  , 0x07, 0x12, 0x80, 0xe2, 0xeb, 0x27, 0xb2, 0x75
  , 0x09, 0x83, 0x2c, 0x1a, 0x1b, 0x6e, 0x5a, 0xa0
  , 0x52, 0x3b, 0xd6, 0xb3, 0x29, 0xe3, 0x2f, 0x84
  , 0x53, 0xd1, 0x00, 0xed, 0x20, 0xfc, 0xb1, 0x5b
  , 0x6a, 0xcb, 0xbe, 0x39, 0x4a, 0x4c, 0x58, 0xcf
  , 0xd0, 0xef, 0xaa, 0xfb, 0x43, 0x4d, 0x33, 0x85
  , 0x45, 0xf9, 0x02, 0x7f, 0x50, 0x3c, 0x9f, 0xa8
  , 0x51, 0xa3, 0x40, 0x8f, 0x92, 0x9d, 0x38, 0xf5
  , 0xbc, 0xb6, 0xda, 0x21, 0x10, 0xff, 0xf3, 0xd2
  , 0xcd, 0x0c, 0x13, 0xec, 0x5f, 0x97, 0x44, 0x17
  , 0xc4, 0xa7, 0x7e, 0x3d, 0x64, 0x5d, 0x19, 0x73
  , 0x60, 0x81, 0x4f, 0xdc, 0x22, 0x2a, 0x90, 0x88
  , 0x46, 0xee, 0xb8, 0x14, 0xde, 0x5e, 0x0b, 0xdb
  , 0xe0, 0x32, 0x3a, 0x0a, 0x49, 0x06, 0x24, 0x5c
  , 0xc2, 0xd3, 0xac, 0x62, 0x91, 0x95, 0xe4, 0x79
  , 0xe7, 0xc8, 0x37, 0x6d, 0x8d, 0xd5, 0x4e, 0xa9
  , 0x6c, 0x56, 0xf4, 0xea, 0x65, 0x7a, 0xae, 0x08
  , 0xba, 0x78, 0x25, 0x2e, 0x1c, 0xa6, 0xb4, 0xc6
  , 0xe8, 0xdd, 0x74, 0x1f, 0x4b, 0xbd, 0x8b, 0x8a
  , 0x70, 0x3e, 0xb5, 0x66, 0x48, 0x03, 0xf6, 0x0e
  , 0x61, 0x35, 0x57, 0xb9, 0x86, 0xc1, 0x1d, 0x9e
  , 0xe1, 0xf8, 0x98, 0x11, 0x69, 0xd9, 0x8e, 0x94
  , 0x9b, 0x1e, 0x87, 0xe9, 0xce, 0x55, 0x28, 0xdf
  , 0x8c, 0xa1, 0x89, 0x0d, 0xbf, 0xe6, 0x42, 0x68
  , 0x41, 0x99, 0x2d, 0x0f, 0xb0, 0x54, 0xbb, 0x16 ]

def INV_SBOX_TABLE : List Nat :=
  [ 0x52, 0x09, 0x6a, 0xd5, 0x30, 0x36, 0xa5, 0x38
  , 0xbf, 0x40, 0xa3, 0x9e, 0x81, 0xf3, 0xd7, 0xfb
  , 0x7c, 0xe3, 0x39, 0x82, 0x9b, 0x2f, 0xff, 0x87
  , 0x34, 0x8e, 0x43, 0x44, 0xc4, 0xde, 0xe9, 0xcb
  , 0x54, 0x7b, 0x94, 0x32, 0xa6, 0xc2, 0x23, 0x3d
  , 0xee, 0x4c, 0x95, 0x0b, 0x42, 0xfa, 0xc3, 0x4e
  , 0x08, 0x2e, 0xa1, 0x66, 0x28, 0xd9, 0x24, 0xb2
  , 0x76, 0x5b, 0xa2, 0x49, 0x6d, 0x8b, 0xd1, 0x25
  , 0x72, 0xf8, 0xf6, 0x64, 0x86, 0x68, 0x98, 0x16
  , 0xd4, 0xa4, 0x5c, 0xcc, 0x5d, 0x65, 0xb6, 0x92
  , 0x6c, 0x70, 0x48, 0x50, 0xfd, 0xed, 0xb9, 0xda
  , 0x5e, 0x15, 0x46, 0x57, 0xa7, 0x8d, 0x9d, 0x84
  , 0x90, 0xd8, 0xab, 0x00, 0x8c, 0xbc, 0xd3, 0x0a
  , 0xf7, 0xe4, 0x58, 0x05, 0xb8, 0xb3, 0x45, 0x06
  , 0xd0, 0x2c, 0x1e, 0x8f, 0xca, 0x3f, 0x0f, 0x02
  , 0xc1, 0xaf, 0xbd, 0x03, 0x01, 0x13, 0x8a, 0x6b
  , 0x3a, 0x91, 0x11, 0x41, 0x4f, 0x67, 0xdc, 0xea
  , 0x97, 0xf2, 0xcf, 0xce, 0xf0, 0xb4, 0xe6, 0x73
  , 0x96, 0xac, 0x74, 0x22, 0xe7, 0xad, 0x35, 0x85
  , 0xe2, 0xf9, 0x37, 0xe8, 0x1c, 0x75, 0xdf, 0x6e
  , 0x47, 0xf1, 0x1a, 0x71, 0x1d, 0x29, 0xc5, 0x89
  , 0x6f, 0xb7, 0x62, 0x0e, 0xaa, 0x18, 0xbe, 0x1b
  , 0xfc, 0x56, 0x3e, 0x4b, 0xc6, 0xd2, 0x79, 0x20
  , 0x9a, 0xdb, 0xc0, 0xfe, 0x78, 0xcd, 0x5a, 0xf4
  , 0x1f, 0xdd, 0xa8, 0x33, 0x88, 0x07, 0xc7, 0x31
  , 0xb1, 0x12, 0x10, 0x59, 0x27, 0x80, 0xec, 0x5f
  , 0x60, 0x51, 0x7f, 0xa9, 0x19, 0xb5, 0x4a, 0x0d
  , 0x2d, 0xe5, 0x7a, 0x9f, 0x93, 0xc9, 0x9c, 0xef
  , 0xa0, 0xe0, 0x3b, 0x4d, 0xae, 0x2a, 0xf5, 0xb0
  , 0xc8, 0xeb, 0xbb, 0x3c, 0x83, 0x53, 0x99, 0x61
  , 0x17, 0x2b, 0x04, 0x7e, 0xba, 0x77, 0xd6, 0x26
  , 0xe1, 0x69, 0x14, 0x63, 0x55, 0x21, 0x0c, 0x7d ]

/-- Bits of a byte, least significant first (the initial circuit
environment: word `k` of a `Bitslice` holds bit `k` of each byte). -/
def byteBits (b : Nat) : List Bool :=
  [b.testBit 0, b.testBit 1, b.testBit 2, b.testBit 3,
   b.testBit 4, b.testBit 5, b.testBit 6, b.testBit 7]

def bitsByte : List Bool → Nat
  | [] => 0
  | b :: t => (if b then 1 else 0) + 2 * bitsByte t

/-- The Rijndael S-box evaluated on a single byte through the
`sub_bytes` circuit (word width 1: each bit plane is one `Bool`). -/
def sboxCircuitByte (b : Nat) : Nat :=
  bitsByte (runCircuit xor and not false SBOX_PROG SBOX_OUT (byteBits b))

/-- The inverse Rijndael S-box evaluated on a single byte through the
`inv_sub_bytes` circuit. -/
def invSboxCircuitByte (b : Nat) : Nat :=
  bitsByte (runCircuit xor and not false INV_SBOX_PROG INV_SBOX_OUT
    (byteBits b))

/-- Modelled from the spec: the build-generated `OUT_DIR/sbox.rs` table
`SBOX` used by the reference backend is the standard Rijndael S-box
(spec section 4.4 and the `sub_bytes` known-answer test); the generating
build script is not part of `src/`.  `sbox_tables_match_circuits` below
checks this model against the in-tree bit-sliced circuit. -/
def SBOX (b : Nat) : Nat := SBOX_TABLE.getD b 0

/-- Modelled from the spec: the build-generated inverse S-box table
`INV_SBOX` of the reference backend (see `SBOX`). -/
def INV_SBOX (b : Nat) : Nat := INV_SBOX_TABLE.getD b 0

/-! ### Circuit evaluation is bitwise

`sub_bytes` instantiates the same gate program at every bit position of
the machine words.  The homomorphism lemma below transports circuit
evaluations along any map commuting with the three gate operations; with
`f = Nat.testBit b` it reduces word-level evaluation to the Boolean
evaluation at one bit position. -/

theorem getD_map {α β : Type} (f : α → β) (l : List α) (d : α) (i : Nat) :
    (l.map f).getD i (f d) = f (l.getD i d) := by
  induction l generalizing i with
  | nil => rfl
  | cons x t ih =>
    cases i with
    | zero => rfl
    | succ j => exact ih j

theorem evalGates_hom {α β : Type} (f : α → β)
    (xa aa : α → α → α) (na : α → α) (da : α)
    (xb ab : β → β → β) (nb : β → β)
    (hx : ∀ u v, f (xa u v) = xb (f u) (f v))
    (ha : ∀ u v, f (aa u v) = ab (f u) (f v))
    (hn : ∀ u, f (na u) = nb (f u)) :
    ∀ (prog : List (GateOp × Nat × Nat)) (env : List α),
      (evalGates xa aa na da prog env).map f
        = evalGates xb ab nb (f da) prog (env.map f) := by
  intro prog
  induction prog with
  | nil => intro env; rfl
  | cons g t ih =>
    intro env
    rcases g with ⟨op, i, j⟩
    have hg : f (gateApply xa aa na da env (op, i, j))
        = gateApply xb ab nb (f da) (env.map f) (op, i, j) := by
      cases op <;> simp [gateApply, hx, ha, hn, getD_map]
    calc (evalGates xa aa na da ((op, i, j) :: t) env).map f
        = (evalGates xa aa na da t
            (gateApply xa aa na da env (op, i, j) :: env)).map f := rfl
      _ = evalGates xb ab nb (f da) t
            ((gateApply xa aa na da env (op, i, j) :: env).map f) := ih _
      _ = evalGates xb ab nb (f da) t
            (gateApply xb ab nb (f da) (env.map f) (op, i, j)
              :: env.map f) := by rw [List.map_cons, hg]

theorem runCircuit_hom {α β : Type} (f : α → β)
    (xa aa : α → α → α) (na : α → α) (da : α)
    (xb ab : β → β → β) (nb : β → β)
    (hx : ∀ u v, f (xa u v) = xb (f u) (f v))
    (ha : ∀ u v, f (aa u v) = ab (f u) (f v))
    (hn : ∀ u, f (na u) = nb (f u))
    (prog : List (GateOp × Nat × Nat)) (outs : List Nat)
    (inputs : List α) :
    (runCircuit xa aa na da prog outs inputs).map f
      = runCircuit xb ab nb (f da) prog outs (inputs.map f) := by
  unfold runCircuit
  rw [List.map_map, ← evalGates_hom f xa aa na da xb ab nb hx ha hn prog
    inputs]
  exact List.map_congr_left fun i _ => (getD_map f _ da i).symm

/-- Bitwise NOT truncated to `w` bits (`!x` on a `w`-bit word). -/
def wnot (w x : Nat) : Nat := x ^^^ (2 ^ w - 1)

theorem testBit_wnot {w x b : Nat} (hb : b < w) :
    (wnot w x).testBit b = not (x.testBit b) := by
  unfold wnot
  rw [Nat.testBit_xor, Nat.testBit_two_pow_sub_one]
  simp [hb]

theorem testBit_xor_bool (u v b : Nat) :
    (u ^^^ v).testBit b = xor (u.testBit b) (v.testBit b) := by
  rw [Nat.testBit_xor]

theorem testBit_and_bool (u v b : Nat) :
    (u &&& v).testBit b = and (u.testBit b) (v.testBit b) := by
  rw [Nat.testBit_and]

/-- Truth-table word `k`: bit `b` of `ttWord k` is bit `k` of the byte
`b`, for `b < 256` (a 256-bit-wide bit-sliced batch holding every byte
value once; internal proof device). -/
def ttWord (k : Nat) : Nat :=
  (List.range 256).foldl
    (fun acc b => if Nat.testBit b k then acc ||| (1 <<< b) else acc) 0

def ttInputs : List Nat :=
  [ttWord 0, ttWord 1, ttWord 2, ttWord 3,
   ttWord 4, ttWord 5, ttWord 6, ttWord 7]

theorem ttInputs_testBit :
    ∀ b < 256, ttInputs.map (fun x => x.testBit b) = byteBits b := by decide

/-- The forward S-box circuit evaluated on the truth-table batch. -/
def SBOX_WORDS : List Nat :=
  runCircuit (· ^^^ ·) (· &&& ·) (wnot 256) 0 SBOX_PROG SBOX_OUT ttInputs

/-- The inverse S-box circuit evaluated on the truth-table batch. -/
def INV_SBOX_WORDS : List Nat :=
  runCircuit (· ^^^ ·) (· &&& ·) (wnot 256) 0 INV_SBOX_PROG INV_SBOX_OUT
    ttInputs

set_option maxHeartbeats 4000000 in
theorem sbox_words_eval :
    SBOX_WORDS =
  [ 0x4f1ead396f247a0410bdb210c006eab568ab4bfa8acb7a13b14ede67096c6eed
  , 0xc870974094ead8a96a450b2ef33486b4e61a4c5e97816f7a7bae007d4c53fc7d
  , 0xac39b6c0d6ce2efc577d64e03b0c3ffb23a869a2a428c424a16387fb3b48b4c6
  , 0x4e9ddb76c892fb1be9da849cf6ac6c1b2568ea2effa8527d109020a2193d586a
  , 0xf210a3aece472e532624b286bc48ecb4f7f17a494ce30f58c2b0f97752b8b11e
  , 0x54b248130b4f256f7d8dcc4706319e086bc2aa4e0d787aa4f8045f7b6d98dd7f
  , 0x21e0b833255917823f6bcb91b30db559e4851b3bf3ab2560980a3cc2c2fdb4ff
  , 0x52379de7b844e3e14cb3770196ca0329e7bac28f866aac825caa2ec7bf977090 ] := by decide

theorem sbox_words_spec :
    ∀ b < 256, SBOX_WORDS.map (fun x => x.testBit b) = byteBits (SBOX b) := by
  simp only [sbox_words_eval]
  decide

set_option maxHeartbeats 4000000 in
theorem inv_sbox_words_eval :
    INV_SBOX_WORDS =
  [ 0xbb23f64cbbbe99eb224883fb66f0853ebf6869447a703000fa244cc2c4f6f54a
  , 0x08fb36349c4492694b3edf05c519cfb1eafca1c41d80c095278af97aa6faed25
  , 0xd4ed0858cba4d063a8174b51f4f76d70066ecb30ff317f9c914a87953be14968
  , 0xc21a4f3ceddcc8177b4df9b4da220cd1c67e14b661f51c623a33ab82e2758986
  , 0x94796cc45c368f8bdb67e21e7645b347242535634bdad5c743a0248f2155e9b9
  , 0xabba8ef7872d518c98c5572aaf7ef2a1862233241073622f95de21da4167a5f4
  , 0x9b68a34aa647c842fe7b054beb14def8811147420dbf3d2f5b28f323fc43e20d
  , 0x015057d3fa286156af3152c24bb37fc247193377f0f0cb5664a46534f2dafd48 ] := by decide
theorem inv_sbox_words_spec :
    ∀ b < 256,
      INV_SBOX_WORDS.map (fun x => x.testBit b) = byteBits (INV_SBOX b) := by
  simp only [inv_sbox_words_eval]
  decide

/-- Boolean evaluation of the forward circuit computes the `SBOX` table. -/
theorem circuitBool_sbox : ∀ b < 256,
    runCircuit xor and not false SBOX_PROG SBOX_OUT (byteBits b)
      = byteBits (SBOX b) := by
  intro b hb
  have h1 := runCircuit_hom (fun x => Nat.testBit x b) (· ^^^ ·) (· &&& ·)
    (wnot 256) 0 xor and not
    (fun u v => testBit_xor_bool u v b) (fun u v => testBit_and_bool u v b)
    (fun u => testBit_wnot hb) SBOX_PROG SBOX_OUT ttInputs
  calc runCircuit xor and not false SBOX_PROG SBOX_OUT (byteBits b)
      = runCircuit xor and not false SBOX_PROG SBOX_OUT
          (ttInputs.map (fun x => x.testBit b)) := by
        rw [ttInputs_testBit b hb]
    _ = SBOX_WORDS.map (fun x => x.testBit b) := h1.symm
    _ = byteBits (SBOX b) := sbox_words_spec b hb

/-- Boolean evaluation of the inverse circuit computes `INV_SBOX`. -/
theorem circuitBool_inv_sbox : ∀ b < 256,
    runCircuit xor and not false INV_SBOX_PROG INV_SBOX_OUT (byteBits b)
      = byteBits (INV_SBOX b) := by
  intro b hb
  have h1 := runCircuit_hom (fun x => Nat.testBit x b) (· ^^^ ·) (· &&& ·)
    (wnot 256) 0 xor and not
    (fun u v => testBit_xor_bool u v b) (fun u v => testBit_and_bool u v b)
    (fun u => testBit_wnot hb) INV_SBOX_PROG INV_SBOX_OUT ttInputs
  calc runCircuit xor and not false INV_SBOX_PROG INV_SBOX_OUT (byteBits b)
      = runCircuit xor and not false INV_SBOX_PROG INV_SBOX_OUT
          (ttInputs.map (fun x => x.testBit b)) := by
        rw [ttInputs_testBit b hb]
    _ = INV_SBOX_WORDS.map (fun x => x.testBit b) := h1.symm
    _ = byteBits (INV_SBOX b) := inv_sbox_words_spec b hb

theorem bitsByte_byteBits : ∀ b < 256, bitsByte (byteBits b) = b := by decide

/-- The literal tables agree with the byte instantiations of the
bit-sliced circuits from `src/bitslice/sbox.rs` (validating the
spec-modelled `SBOX` / `INV_SBOX`). -/
theorem SBOX_lt : ∀ b < 256, SBOX b < 256 := by decide

theorem INV_SBOX_lt : ∀ b < 256, INV_SBOX b < 256 := by decide

theorem sbox_tables_match_circuits :
    ∀ b < 256, SBOX b = sboxCircuitByte b ∧ INV_SBOX b = invSboxCircuitByte b
    := by
  intro b hb
  refine ⟨?_, ?_⟩
  · unfold sboxCircuitByte
    rw [circuitBool_sbox b hb, bitsByte_byteBits _ (SBOX_lt b hb)]
  · unfold invSboxCircuitByte
    rw [circuitBool_inv_sbox b hb, bitsByte_byteBits _ (INV_SBOX_lt b hb)]

/-! ## `gf256/src/lib.rs`: GF(2^8) arithmetic

`MulAssign for Element`: eight rounds of shift-and-reduce; `lhs` is
doubled (with reduction by `0x1b` on overflow) while `rhs` is consumed
bit by bit. -/

/-- One doubling of `lhs` as in the multiplication loop body. -/
def xtime (lhs : Nat) : Nat :=
  if lhs &&& 0x80 ≠ 0 then ((lhs * 2) % 256) ^^^ 0x1b else (lhs * 2) % 256

def gmulLoop : Nat → Nat → Nat → Nat
  | 0, _, _ => 0
  | k + 1, lhs, rhs =>
    (if rhs % 2 = 1 then lhs else 0) ^^^ gmulLoop k (xtime lhs) (rhs / 2)

/-- `Element(a) * Element(b)`. -/
def gmul (a b : Nat) : Nat := gmulLoop 8 a b

/-! ## `src/aes/block.rs` and `src/aes/simple.rs`: the reference backend

A `Block` is 16 bytes in column-major order (`index = row + 4 * col`),
embedded as a `List Nat` of length 16. -/

/-- `self.0.swap(i, j)` on a byte array. -/
def lswap (l : List Nat) (i j : Nat) : List Nat :=
  (l.set i (l.getD j 0)).set j (l.getD i 0)

def subBytesB (b : List Nat) : List Nat := b.map SBOX

def invSubBytesB (b : List Nat) : List Nat := b.map INV_SBOX

/-- `ShiftRows for Block` (the swap sequence from `simple.rs`). -/
def shiftRowsB (b : List Nat) : List Nat :=
  lswap (lswap (lswap (lswap (lswap (lswap (lswap (lswap b 1 5)
    5 9) 9 13) 2 10) 6 14) 11 15) 7 11) 3 7

/-- `InvShiftRows`: the same swaps in reverse order
(`define_function_of_involutions_with_inverse!`). -/
def invShiftRowsB (b : List Nat) : List Nat :=
  lswap (lswap (lswap (lswap (lswap (lswap (lswap (lswap b 3 7)
    7 11) 11 15) 6 14) 2 10) 9 13) 5 9) 1 5

/-- `elem`: `self[(r % 4, c)]`. -/
def elemB (l : List Nat) (r c : Nat) : Nat := l.getD (r % 4 + 4 * c) 0

/-- Builds the 16-byte column-major block whose `(row, col)` entry is
`f row col`. -/
def blockOfFn (f : Nat → Nat → Nat) : List Nat :=
  [f 0 0, f 1 0, f 2 0, f 3 0, f 0 1, f 1 1, f 2 1, f 3 1,
   f 0 2, f 1 2, f 2 2, f 3 2, f 0 3, f 1 3, f 2 3, f 3 3]

/-- `MixColumns for Block`: `2•b[r] + 3•b[r+1] + 1•b[r+2] + 1•b[r+3]`
per column. -/
def mixColumnsB (b : List Nat) : List Nat :=
  blockOfFn fun row col =>
    gmul 2 (elemB b row col) ^^^ (gmul 3 (elemB b (row + 1) col) ^^^
    (gmul 1 (elemB b (row + 2) col) ^^^ gmul 1 (elemB b (row + 3) col)))

/-- `InvMixColumns for Block`: coefficients `14, 11, 13, 9`. -/
def invMixColumnsB (b : List Nat) : List Nat :=
  blockOfFn fun row col =>
    gmul 14 (elemB b row col) ^^^ (gmul 11 (elemB b (row + 1) col) ^^^
    (gmul 13 (elemB b (row + 2) col) ^^^ gmul 9 (elemB b (row + 3) col)))

/-- `AddRoundKey for Block`: bytewise XOR. -/
def addRoundKeyB (b rk : List Nat) : List Nat := List.zipWith (· ^^^ ·) b rk

/-! ## `src/aes/ops.rs`: the generic AES driver

`impl<T> Aes for T where T: ShiftRows + MixColumns + SubBytes +
AddRoundKey` builds the four round functions from the primitive
operations; `Aes::encrypt` / `Aes::decrypt` assert that the number of
round keys is 11, 13 or 15 and walk the schedule.  The assertion is
modelled by returning `none` when it would panic. -/

structure AesOps (σ κ : Type) where
  subBytes : σ → σ
  shiftRows : σ → σ
  mixColumns : σ → σ
  invSubBytes : σ → σ
  invShiftRows : σ → σ
  invMixColumns : σ → σ
  addRoundKey : σ → κ → σ

def encryptRound {σ κ : Type} (ops : AesOps σ κ) (s : σ) (rk : κ) : σ :=
  ops.addRoundKey (ops.mixColumns (ops.shiftRows (ops.subBytes s))) rk

def encryptRoundLast {σ κ : Type} (ops : AesOps σ κ) (s : σ) (rk : κ) : σ :=
  ops.addRoundKey (ops.shiftRows (ops.subBytes s)) rk

def decryptRound {σ κ : Type} (ops : AesOps σ κ) (s : σ) (rk : κ) : σ :=
  ops.invMixColumns (ops.addRoundKey (ops.invSubBytes (ops.invShiftRows s)) rk)

def decryptRoundLast {σ κ : Type} (ops : AesOps σ κ) (s : σ) (rk : κ) : σ :=
  ops.addRoundKey (ops.invSubBytes (ops.invShiftRows s)) rk

/-- `Aes::encrypt`: `AddRoundKey(rk[0])`, the normal rounds over
`rk[1 .. rounds-1]`, then the final round with the last key. -/
def aesEncrypt {σ κ : Type} (ops : AesOps σ κ) (rks : List κ) (s : σ) :
    Option σ :=
  if rks.length = 11 ∨ rks.length = 13 ∨ rks.length = 15 then
    match rks with
    | [] => none
    | k0 :: rest =>
      match rest.getLast? with
      | none => none
      | some kn =>
        some (encryptRoundLast ops
          (rest.dropLast.foldl (encryptRound ops) (ops.addRoundKey s k0)) kn)
  else none

/-- `Aes::decrypt`: `AddRoundKey(rk[last])`, the normal rounds over
`rk[1 .. rounds-1]` reversed, then the final round with the first key. -/
def aesDecrypt {σ κ : Type} (ops : AesOps σ κ) (rks : List κ) (s : σ) :
    Option σ :=
  if rks.length = 11 ∨ rks.length = 13 ∨ rks.length = 15 then
    match rks with
    | [] => none
    | k0 :: rest =>
      match rest.getLast? with
      | none => none
      | some kn =>
        some (decryptRoundLast ops
          (rest.dropLast.reverse.foldl (decryptRound ops)
            (ops.addRoundKey s kn)) k0)
  else none

/-- The reference backend operations (`simple.rs` impls for `Block`). -/
def refOps : AesOps (List Nat) (List Nat) :=
  ⟨subBytesB, shiftRowsB, mixColumnsB,
   invSubBytesB, invShiftRowsB, invMixColumnsB, addRoundKeyB⟩

/-! ## `src/aes/key.rs`: keys and schedules -/

def ROUND_CONSTANTS : List Nat :=
  [0x01, 0x02, 0x04, 0x08, 0x10, 0x20, 0x40, 0x80, 0x1b, 0x36]

inductive KeyV
  | aes128 (b : List Nat)
  | aes192 (b : List Nat)
  | aes256 (b : List Nat)
deriving DecidableEq, Repr

/-- `Key::from_bytes`: tags the slice by its length, failing on any
length other than 16, 24 or 32 (`Err(())` becomes `none`). -/
def keyFromBytes (b : List Nat) : Option KeyV :=
  if b.length = 16 then some (KeyV.aes128 b)
  else if b.length = 24 then some (KeyV.aes192 b)
  else if b.length = 32 then some (KeyV.aes256 b)
  else none

def KeyV.asSlice : KeyV → List Nat
  | KeyV.aes128 b => b
  | KeyV.aes192 b => b
  | KeyV.aes256 b => b

/-- `Key::rounds`. -/
def KeyV.rounds : KeyV → Nat
  | KeyV.aes128 _ => 10
  | KeyV.aes192 _ => 12
  | KeyV.aes256 _ => 14

/-- `Key::num_round_keys`. -/
def KeyV.numRoundKeys (k : KeyV) : Nat := k.rounds + 1

/-- `Key::len`. -/
def KeyV.len (k : KeyV) : Nat := k.asSlice.length

/-- `Schedule<R>`: 11, 13 or 15 round keys tagged by key size. -/
inductive Sched (ρ : Type)
  | aes128 (rks : List ρ)
  | aes192 (rks : List ρ)
  | aes256 (rks : List ρ)
deriving DecidableEq, Repr

def Sched.asSlice {ρ : Type} : Sched ρ → List ρ
  | Sched.aes128 rks => rks
  | Sched.aes192 rks => rks
  | Sched.aes256 rks => rks

/-- `Schedule::fill_with`. -/
def schedFillWith {ρ : Type} (key : KeyV) (rk : ρ) : Sched ρ :=
  match key with
  | KeyV.aes128 _ => Sched.aes128 (List.replicate 11 rk)
  | KeyV.aes192 _ => Sched.aes192 (List.replicate 13 rk)
  | KeyV.aes256 _ => Sched.aes256 (List.replicate 15 rk)

/-! ## `src/aes/simple.rs`: reference key expansion -/

/-- `Schedule::word(n)`: big-endian `u32` at word index `n`. -/
def refWordGet (rks : List (List Nat)) (n : Nat) : Nat :=
  let rk := rks.getD (n / 4) []
  let i := 4 * (n % 4)
  (rk.getD i 0) <<< 24 ||| ((rk.getD (i + 1) 0) <<< 16 |||
    ((rk.getD (i + 2) 0) <<< 8 ||| rk.getD (i + 3) 0))

/-- `Schedule::set_word(n, w)`: writes the word back as big-endian
bytes. -/
def refWordSet (rks : List (List Nat)) (n wv : Nat) : List (List Nat) :=
  let rk := rks.getD (n / 4) []
  let i := 4 * (n % 4)
  rks.set (n / 4)
    ((((rk.set i ((wv >>> 24) % 256)).set (i + 1) ((wv >>> 16) % 256)).set
      (i + 2) ((wv >>> 8) % 256)).set (i + 3) (wv % 256))

/-- `sub_word`: the S-box applied to each byte of the `u32`. -/
def subWord32 (wv : Nat) : Nat :=
  SBOX ((wv >>> 24) % 256) <<< 24 ||| (SBOX ((wv >>> 16) % 256) <<< 16 |||
    (SBOX ((wv >>> 8) % 256) <<< 8 ||| SBOX (wv % 256)))

/-- `u32::rotate_left(8)`. -/
def rotl32by8 (a : Nat) : Nat := ((a <<< 8) % 2 ^ 32) ||| (a >>> 24)

/-- One iteration of the expansion loop in `From<Key> for Schedule`
(reference backend); `n = key.len() / 4`. -/
def refExpandStep (n : Nat) (rks : List (List Nat)) (i : Nat) :
    List (List Nat) :=
  let a := refWordGet rks (i - 1)
  let a :=
    if i % n = 0 then
      subWord32 (rotl32by8 a) ^^^ ((ROUND_CONSTANTS.getD (i / n - 1) 0) <<< 24)
    else if i % n = 4 ∧ n > 6 then subWord32 a
    else a
  refWordSet rks i (a ^^^ refWordGet rks (i - n))

/-- The initial schedule contents: key bytes copied chunkwise over the
zero-initialized round keys. -/
def refInitRks (key : KeyV) : List (List Nat) :=
  (List.range key.numRoundKeys).map fun i =>
    (key.asSlice.drop (16 * i)).take 16 ++
      List.replicate (16 - ((key.asSlice.drop (16 * i)).take 16).length) 0

/-- `From<Key<'_>> for Schedule` (reference backend): copy the key and
run the expansion loop for `i in n .. 4 * num_round_keys`. -/
def refExpandKey (key : KeyV) : List (List Nat) :=
  let n := key.len / 4
  (List.range' n (4 * key.numRoundKeys - n)).foldl (refExpandStep n)
    (refInitRks key)

def refScheduleFromKey (key : KeyV) : Sched (List Nat) :=
  match key with
  | KeyV.aes128 _ => Sched.aes128 (refExpandKey key)
  | KeyV.aes192 _ => Sched.aes192 (refExpandKey key)
  | KeyV.aes256 _ => Sched.aes256 (refExpandKey key)

/-- `BlockCipher for Schedule` (reference backend): encrypts the first
16 bytes of the buffer in place and returns 16.  Panics (`none`) when
the buffer is shorter than one block or the assert in `Aes::encrypt`
fails. -/
def refEncryptBlocks (sched : Sched (List Nat)) (bytes : List Nat) :
    Option (List Nat × Nat) :=
  if bytes.length < 16 then none
  else
    (aesEncrypt refOps sched.asSlice (bytes.take 16)).map
      fun blk => (blk ++ bytes.drop 16, 16)

def refDecryptBlocks (sched : Sched (List Nat)) (bytes : List Nat) :
    Option (List Nat × Nat) :=
  if bytes.length < 16 then none
  else
    (aesDecrypt refOps sched.asSlice (bytes.take 16)).map
      fun blk => (blk ++ bytes.drop 16, 16)

def KAT_PLAIN : List Nat :=
  [0x00, 0x11, 0x22, 0x33, 0x44, 0x55, 0x66, 0x77,
   0x88, 0x99, 0xaa, 0xbb, 0xcc, 0xdd, 0xee, 0xff]

def KAT_KEY_128 : List Nat :=
  [0x00, 0x01, 0x02, 0x03, 0x04, 0x05, 0x06, 0x07,
   0x08, 0x09, 0x0a, 0x0b, 0x0c, 0x0d, 0x0e, 0x0f]

def KAT_KEY_192 : List Nat := KAT_KEY_128 ++
  [0x10, 0x11, 0x12, 0x13, 0x14, 0x15, 0x16, 0x17]

def KAT_KEY_256 : List Nat := KAT_KEY_192 ++
  [0x18, 0x19, 0x1a, 0x1b, 0x1c, 0x1d, 0x1e, 0x1f]

set_option maxHeartbeats 4000000 in
/-- C1: the three FIPS-197 known-answer tests.  Encrypting the single
plaintext block `00112233445566778899aabbccddeeff` through
`encrypt_blocks` with a `Schedule` built from the AES-128, AES-192 and
AES-256 known-answer keys yields exactly the three expected ciphertext
blocks (16 bytes consumed each time). -/
theorem known_answer_tests :
    (keyFromBytes KAT_KEY_128).map
        (fun k => refEncryptBlocks (refScheduleFromKey k) KAT_PLAIN)
      = some (some ([0x69, 0xc4, 0xe0, 0xd8, 0x6a, 0x7b, 0x04, 0x30,
                     0xd8, 0xcd, 0xb7, 0x80, 0x70, 0xb4, 0xc5, 0x5a], 16)) ∧
    (keyFromBytes KAT_KEY_192).map
        (fun k => refEncryptBlocks (refScheduleFromKey k) KAT_PLAIN)
      = some (some ([0xdd, 0xa9, 0x7c, 0xa4, 0x86, 0x4c, 0xdf, 0xe0,
                     0x6e, 0xaf, 0x70, 0xa0, 0xec, 0x0d, 0x71, 0x91], 16)) ∧
    (keyFromBytes KAT_KEY_256).map
        (fun k => refEncryptBlocks (refScheduleFromKey k) KAT_PLAIN)
      = some (some ([0x8e, 0xa2, 0xb7, 0xca, 0x51, 0x67, 0x45, 0xbf,
                     0xea, 0xfc, 0x49, 0x90, 0x4b, 0x49, 0x60, 0x89], 16)) := by
  refine ⟨by decide, by decide, by decide⟩

/-- C9: `Key::from_bytes` returns the matching tagged variant exactly
for slice lengths 16, 24 and 32, and an invalid-key error (`Err(())`,
modelled as `none`) for every other length. -/
theorem key_from_bytes_length (b : List Nat) :
    (b.length = 16 → keyFromBytes b = some (KeyV.aes128 b)) ∧
    (b.length = 24 → keyFromBytes b = some (KeyV.aes192 b)) ∧
    (b.length = 32 → keyFromBytes b = some (KeyV.aes256 b)) ∧
    (b.length ≠ 16 → b.length ≠ 24 → b.length ≠ 32 →
      keyFromBytes b = none) := by
  refine ⟨fun h => ?_, fun h => ?_, fun h => ?_, fun h1 h2 h3 => ?_⟩ <;>
    simp [keyFromBytes, *]

theorem key_from_bytes_length_witness :
    keyFromBytes (List.replicate 16 7) = some (KeyV.aes128
      (List.replicate 16 7)) ∧
    keyFromBytes (List.replicate 24 7) = some (KeyV.aes192
      (List.replicate 24 7)) ∧
    keyFromBytes (List.replicate 32 7) = some (KeyV.aes256
      (List.replicate 32 7)) ∧
    keyFromBytes (List.replicate 17 7) = none :=
  ⟨(key_from_bytes_length _).1 (by decide),
   (key_from_bytes_length _).2.1 (by decide),
   (key_from_bytes_length _).2.2.1 (by decide),
   (key_from_bytes_length _).2.2.2 (by decide) (by decide) (by decide)⟩

/-! ### Schedule length invariants (towards C10) -/

theorem refExpandStep_length (n : Nat) (rks : List (List Nat)) (i : Nat) :
    (refExpandStep n rks i).length = rks.length := by
  unfold refExpandStep refWordSet
  exact List.length_set ..

theorem foldl_refExpandStep_length (n : Nat) (l : List Nat)
    (init : List (List Nat)) :
    (l.foldl (refExpandStep n) init).length = init.length := by
  induction l generalizing init with
  | nil => rfl
  | cons i t ih => rw [List.foldl_cons, ih, refExpandStep_length]

theorem refExpandKey_length (key : KeyV) :
    (refExpandKey key).length = key.numRoundKeys := by
  unfold refExpandKey
  rw [foldl_refExpandStep_length]
  unfold refInitRks
  simp

/-- The assert in `Aes::encrypt` succeeds whenever the schedule length
is 11, 13 or 15, and the encryption returns a value. -/
theorem aesEncrypt_isSome {σ κ : Type} (ops : AesOps σ κ) (rks : List κ)
    (h : rks.length = 11 ∨ rks.length = 13 ∨ rks.length = 15) (s : σ) :
    (aesEncrypt ops rks s).isSome := by
  unfold aesEncrypt
  rw [if_pos h]
  cases rks with
  | nil => simp at h
  | cons k0 rest =>
    cases hl : rest.getLast? with
    | none =>
      rw [List.getLast?_eq_none_iff] at hl
      subst hl
      simp at h
    | some kn => simp [hl]

theorem aesDecrypt_isSome {σ κ : Type} (ops : AesOps σ κ) (rks : List κ)
    (h : rks.length = 11 ∨ rks.length = 13 ∨ rks.length = 15) (s : σ) :
    (aesDecrypt ops rks s).isSome := by
  unfold aesDecrypt
  rw [if_pos h]
  cases rks with
  | nil => simp at h
  | cons k0 rest =>
    cases hl : rest.getLast? with
    | none =>
      rw [List.getLast?_eq_none_iff] at hl
      subst hl
      simp at h
    | some kn => simp [hl]

/-! ## `src/bitslice/primitive.rs` and `bitslice.rs`: bit-sliced AES at
word width 64 (`MachineWord = u64` on 64-bit targets; four parallel
blocks per batch) -/

def numBytes64 : Nat := 8 * 8

/-- `Bitslice::num_blocks()` at width 64. -/
def numBlocks64 : Nat := numBytes64 / 16

/-- `Bitslice::col_shift()`. -/
def colShift64 : Nat := numBlocks64

/-- `Bitslice::row_shift()`. -/
def rowShift64 : Nat := 4 * colShift64

/-- `Bitslice::first_byte()`. -/
def firstByte64 : Nat := (1 <<< numBlocks64) - 1

/-- `Bitslice::first_row()`. -/
def firstRow64 : Nat := (1 <<< rowShift64) - 1

/-- `Bitslice::first_col()`. -/
def firstCol64 : Nat := bitmask firstByte64 rowShift64

/-- `Bitslice::nth_col_mask(n)`. -/
def nthColMask64 (n : Nat) : Nat := firstCol64 <<< (n * colShift64)

def W8.map (f : Nat → Nat) (s : W8) : W8 :=
  ⟨f s.w0, f s.w1, f s.w2, f s.w3, f s.w4, f s.w5, f s.w6, f s.w7⟩

def W8.zipWith (f : Nat → Nat → Nat) (s t : W8) : W8 :=
  ⟨f s.w0 t.w0, f s.w1 t.w1, f s.w2 t.w2, f s.w3 t.w3,
   f s.w4 t.w4, f s.w5 t.w5, f s.w6 t.w6, f s.w7 t.w7⟩

/-- `BitXor for Bitslice`: word-wise XOR. -/
def W8.xor (s t : W8) : W8 := W8.zipWith (· ^^^ ·) s t

def W8.zero : W8 := ⟨0, 0, 0, 0, 0, 0, 0, 0⟩

def W8.get (s : W8) : Nat → Nat
  | 0 => s.w0
  | 1 => s.w1
  | 2 => s.w2
  | 3 => s.w3
  | 4 => s.w4
  | 5 => s.w5
  | 6 => s.w6
  | _ => s.w7

def bsListOfW8 (s : W8) : List Nat :=
  [s.w0, s.w1, s.w2, s.w3, s.w4, s.w5, s.w6, s.w7]

def w8OfList (l : List Nat) : W8 :=
  ⟨l.getD 0 0, l.getD 1 0, l.getD 2 0, l.getD 3 0,
   l.getD 4 0, l.getD 5 0, l.getD 6 0, l.getD 7 0⟩

/-- `Bitslice::_shift_rows` on one word: row 0 unchanged; row `i` is
rotated within its row mask by `shift * col_shift` (with the carried
part re-entering at `(4 - shift) * col_shift`). -/
def shiftRowsWord64 (shifts : List Nat) (word : Nat) : Nat :=
  (shifts.zip [1, 2, 3]).foldl
    (fun out p =>
      let rowMask := firstRow64 <<< (p.2 * rowShift64)
      let row := word &&& rowMask
      let right := row >>> (p.1 * colShift64)
      let left := (row <<< ((4 - p.1) * colShift64)) % 2 ^ 64
      out ||| ((right ||| left) &&& rowMask))
    (word &&& firstRow64)

/-- `ShiftRows for Bitslice<u64>`: `_shift_rows(1..4)`. -/
def bsShiftRows (s : W8) : W8 := s.map (shiftRowsWord64 [1, 2, 3])

/-- `InvShiftRows for Bitslice<u64>`: `_shift_rows((1..4).rev())`. -/
def bsInvShiftRows (s : W8) : W8 := s.map (shiftRowsWord64 [3, 2, 1])

/-! ### `gf256/src/symbolic.rs`: the symbolic multiplication table -/

/-- `Multiple::increment`: XOR the identity (`1 * b`) into each
coefficient.  A `Multiple` is eight bit sets, one per output bit. -/
def multIncrement (x : List Nat) : List Nat :=
  List.zipWith (fun b i => b ^^^ (1 <<< i)) x (List.range 8)

/-- `Multiple::double`: rotate the coefficient array right by one and
reduce by `0x1b` (`x[1] ^= x[0]; x[3] ^= x[0]; x[4] ^= x[0]`). -/
def multDouble (x : List Nat) : List Nat :=
  let r := x.getLast?.getD 0 :: x.dropLast
  let r0 := r.getD 0 0
  ((r.set 1 (r.getD 1 0 ^^^ r0)).set 3 (r.getD 3 0 ^^^ r0)).set 4
    (r.getD 4 0 ^^^ r0)

/-- `gf256::symbolic::multiplication_table`. -/
def multiplicationTable (upTo : Nat) : List (List Nat) :=
  (List.range' 1 (upTo - 1)).foldl
    (fun ret i =>
      ret ++ [if i % 2 = 1 then multIncrement (ret.getD (i - 1) [])
              else multDouble (ret.getD (i / 2) [])])
    [List.replicate 8 0]

/-- Modelled from the spec: the build-generated `gfmul!` macro
(`OUT_DIR/gf256.rs`) expands `gfmul!(i; k*b)` to the XOR of the input
bit planes listed in coefficient `i` of entry `k` of the symbolic
multiplication table (spec 4.1 and 4.4); the generating build script is
not part of `src/`, but the table code (`gf256/src/symbolic.rs`) is and
is ported above. -/
def gfmulPlane (k i : Nat) (s : W8) : Nat :=
  (List.range 8).foldl
    (fun acc j =>
      if (((multiplicationTable 15).getD k []).getD i 0).testBit j then
        acc ^^^ s.get j
      else acc)
    0

/-- `u64::rotate_right(n)` for `0 < n < 64`. -/
def rotr64 (x n : Nat) : Nat := (x >>> n) ||| ((x <<< (64 - n)) % 2 ^ 64)

/-- `gf_polyval4!(a*b[0] ^ b*b[1] ^ c*b[2] ^ d*b[3])`: output plane `i`
is `gfmul(a)[i] ^ rotr(gfmul(b)[i], row_shift) ^ rotr(gfmul(c)[i],
2*row_shift) ^ rotr(gfmul(d)[i], 3*row_shift)`. -/
def polyval4 (a b c d : Nat) (s : W8) : W8 :=
  w8OfList ((List.range 8).map fun i =>
    gfmulPlane a i s ^^^ (rotr64 (gfmulPlane b i s) rowShift64 ^^^
    (rotr64 (gfmulPlane c i s) (2 * rowShift64) ^^^
     rotr64 (gfmulPlane d i s) (3 * rowShift64))))

/-- `MixColumns for Bitslice<u64>`: coefficients `2, 3, 1, 1`. -/
def bsMixColumns (s : W8) : W8 := polyval4 2 3 1 1 s

/-- `InvMixColumns for Bitslice<u64>`: coefficients `14, 11, 13, 9`. -/
def bsInvMixColumns (s : W8) : W8 := polyval4 14 11 13 9 s

/-- `SubBytes for Bitslice<u64>`: the 113-gate circuit over 64-bit
words. -/
def bsSubBytes (s : W8) : W8 :=
  w8OfList (runCircuit (· ^^^ ·) (· &&& ·) (wnot 64) 0 SBOX_PROG SBOX_OUT
    (bsListOfW8 s))

/-- `InvSubBytes for Bitslice<u64>`: the 121-gate circuit. -/
def bsInvSubBytes (s : W8) : W8 :=
  w8OfList (runCircuit (· ^^^ ·) (· &&& ·) (wnot 64) 0 INV_SBOX_PROG
    INV_SBOX_OUT (bsListOfW8 s))

/-- The bit-sliced backend operations (`AddRoundKey` is word-wise XOR
with the replicated round key). -/
def bsOps : AesOps W8 W8 :=
  ⟨bsSubBytes, bsShiftRows, bsMixColumns,
   bsInvSubBytes, bsInvShiftRows, bsInvMixColumns, W8.xor⟩

/-! ## `src/bitslice/bitslice.rs` and `key.rs`: round keys and key
expansion -/

/-- The helper `bit(byte, bit)` in `RoundKey::from_rc`:
`OUT[(byte >> bit) & 1]` with `OUT = [0, !0]`. -/
def rcBit (rc i : Nat) : Nat := if rc.testBit i then 2 ^ 64 - 1 else 0

/-- `RoundKey::from_rc(rc)`: plane `i` is all-ones masked to the first
row when bit `i` of `rc` is set. -/
def roundKeyFromRc (rc : Nat) : W8 :=
  ⟨rcBit rc 0 &&& firstRow64, rcBit rc 1 &&& firstRow64,
   rcBit rc 2 &&& firstRow64, rcBit rc 3 &&& firstRow64,
   rcBit rc 4 &&& firstRow64, rcBit rc 5 &&& firstRow64,
   rcBit rc 6 &&& firstRow64, rcBit rc 7 &&& firstRow64⟩

/-- `RCON`: `const_map!(RoundKey::from_rc => ROUND_CONSTANTS[..])`. -/
def RCON : List W8 := ROUND_CONSTANTS.map roundKeyFromRc

/-- `RoundKey::from_key`: up to 16 key bytes replicated into every
16-byte lane of the batch, then packed. -/
def roundKeyFromKey (key : List Nat) : W8 :=
  let c := key.take 16 ++ List.replicate (16 - key.length) 0
  bitsliceFromBytes 64 (c ++ (c ++ (c ++ c)))

/-- `RoundKey::rot_word`: every word rotated right by `row_shift`. -/
def bsRotWord (s : W8) : W8 := s.map (fun x => rotr64 x (1 * rowShift64))

/-- `Schedule::word(n)` (bit-sliced): extract column `n % 4` of round
key `n / 4` into the first column. -/
def bsWordGet (rks : List W8) (n : Nat) : W8 :=
  let rk := rks.getD (n / 4) W8.zero
  let col := n % 4
  rk.map (fun x => (x >>> (col * colShift64)) &&& firstCol64)

/-- `Schedule::set_word(n, w)` (bit-sliced): clear column `n % 4` and
OR in the shifted word. -/
def bsWordSet (rks : List W8) (n : Nat) (word : W8) : List W8 :=
  let rk := rks.getD (n / 4) W8.zero
  let col := n % 4
  rks.set (n / 4)
    (W8.zipWith
      (fun rkw ww =>
        (rkw &&& wnot 64 (nthColMask64 col)) |||
        (((ww <<< (col * colShift64)) % 2 ^ 64) &&& nthColMask64 col))
      rk word)

/-- One iteration of `From<Key> for Schedule` (bit-sliced backend). -/
def bsExpandStep (n : Nat) (rks : List W8) (i : Nat) : List W8 :=
  let a := bsWordGet rks (i - 1)
  let a :=
    if i % n = 0 then
      (bsSubBytes (bsRotWord a)).xor (RCON.getD (i / n - 1) W8.zero)
    else if i % n = 4 ∧ n > 6 then bsSubBytes a
    else a
  bsWordSet rks i (a.xor (bsWordGet rks (i - n)))

/-- The initial bit-sliced schedule: `RoundKey::from_key` on each
16-byte chunk of the key, zero-initialized round keys beyond. -/
def bsInitRks (key : KeyV) : List W8 :=
  (List.range key.numRoundKeys).map fun i =>
    if 16 * i < key.len then
      roundKeyFromKey ((key.asSlice.drop (16 * i)).take 16)
    else W8.zero

/-- `From<Key<'_>> for Schedule` (bit-sliced backend). -/
def bsExpandKey (key : KeyV) : List W8 :=
  let n := key.len / 4
  (List.range' n (4 * key.numRoundKeys - n)).foldl (bsExpandStep n)
    (bsInitRks key)

def bsScheduleFromKey (key : KeyV) : Sched W8 :=
  match key with
  | KeyV.aes128 _ => Sched.aes128 (bsExpandKey key)
  | KeyV.aes192 _ => Sched.aes192 (bsExpandKey key)
  | KeyV.aes256 _ => Sched.aes256 (bsExpandKey key)

/-- `ParallelBlockCipher::PARALLEL_BLOCKS` for the bit-sliced schedule:
`Bitslice::<Word>::num_blocks()`. -/
def PARALLEL_BLOCKS : Nat := numBlocks64

/-- The default `ParallelBlockCipher::bytes_encrypted` from
`src/lib.rs`: `cmp::min(len, Self::PARALLEL_BLOCKS)`. -/
def bytesEncrypted (len : Nat) : Nat := min len PARALLEL_BLOCKS

/-- `BlockCipher for Schedule<R>` (`src/aes/key.rs`) at
`R = Bitslice<u64>`: takes `min(len, NUM_BLOCKS * BLOCK_LEN)` bytes,
requires exactly one full batch (`TryFrom` fails otherwise, modelled as
`none`), encrypts in place and returns the byte count. -/
def bsEncryptBlocks (sched : Sched W8) (bytes : List Nat) :
    Option (List Nat × Nat) :=
  let len := min bytes.length (numBlocks64 * 16)
  if len = numBytes64 then
    (aesEncrypt bsOps sched.asSlice (bitsliceFromBytes 64 (bytes.take len))).map
      fun blk => ((bitsliceIntoBytes 64 blk).take len ++ bytes.drop len, len)
  else none

def bsDecryptBlocks (sched : Sched W8) (bytes : List Nat) :
    Option (List Nat × Nat) :=
  let len := min bytes.length (numBlocks64 * 16)
  if len = numBytes64 then
    (aesDecrypt bsOps sched.asSlice (bitsliceFromBytes 64 (bytes.take len))).map
      fun blk => ((bitsliceIntoBytes 64 blk).take len ++ bytes.drop len, len)
  else none

/-- Byte position `(block, row, col)` sits at bit
`row * row_shift + col * col_shift + block` of every plane
(the documented bit-slice geometry). -/
def bsBitIndex (block row col : Nat) : Nat :=
  row * rowShift64 + col * colShift64 + block

/-- `Bitslice::get` at the position of byte `(block, row, col)`:
assembles the byte stored there from the eight planes. -/
def bsGetByte (s : W8) (block row col : Nat) : Nat :=
  bitsByte ((bsListOfW8 s).map (fun w => w.testBit (bsBitIndex block row col)))

set_option maxHeartbeats 4000000 in
/-- C6 (code bug): `bytes_encrypted` computes
`min(len, PARALLEL_BLOCKS)` instead of the documented
`min(len, PARALLEL_BLOCKS * 16)`.  At `len = 64` it answers 4 even
though `encrypt_blocks` and `decrypt_blocks` on a 64-byte buffer
process and return `min(64, 4 * 16) = 64` bytes. -/
theorem bytes_encrypted_code_bug :
    bytesEncrypted 64 = 4 ∧
    min 64 (PARALLEL_BLOCKS * 16) = 64 ∧
    bytesEncrypted 64 ≠ min 64 (PARALLEL_BLOCKS * 16) ∧
    (keyFromBytes KAT_KEY_128).map (fun k =>
        (bsEncryptBlocks (bsScheduleFromKey k)
          (KAT_PLAIN ++ (KAT_PLAIN ++ (KAT_PLAIN ++ KAT_PLAIN)))).map
          Prod.snd)
      = some (some 64) ∧
    (keyFromBytes KAT_KEY_128).map (fun k =>
        (bsDecryptBlocks (bsScheduleFromKey k)
          (KAT_PLAIN ++ (KAT_PLAIN ++ (KAT_PLAIN ++ KAT_PLAIN)))).map
          Prod.snd)
      = some (some 64) := by
  refine ⟨by decide, by decide, by decide, by decide, by decide⟩

/-! ### C7: `RotWord` (bit-sliced) -/

theorem rotr64_testBit {x : Nat} (n k : Nat) (hx : x < 2 ^ 64)
    (hn : 0 < n) (hn2 : n < 64) (hk : k < 64) :
    (rotr64 x n).testBit k = x.testBit ((k + n) % 64) := by
  unfold rotr64
  rw [Nat.testBit_or, Nat.testBit_shiftRight, Nat.testBit_mod_two_pow,
    Nat.testBit_shiftLeft]
  by_cases hc : k < 64 - n
  · have h1 : (k + n) % 64 = n + k := by omega
    have h2 : decide (k ≥ 64 - n) = false := by
      simp
      omega
    rw [h1, h2]
    simp
  · have h1 : (k + n) % 64 = k - (64 - n) := by omega
    have h2 : x.testBit (n + k) = false :=
      testBit_eq_false_of_lt hx (by omega)
    have h3 : decide (k ≥ 64 - n) = true := by
      simp
      omega
    rw [h1, h2, h3]
    simp [hk]

/-- C7 counterexample: on the bit-plane word with only bit 0 set,
`rot_word` does not rotate right by `col_shift` bits as the claim
states (it rotates by `row_shift = 16`, not `col_shift = 4`). -/
theorem rot_word_col_shift_counterexample :
    bsRotWord ⟨1, 0, 0, 0, 0, 0, 0, 0⟩ ≠
      W8.map (fun x => rotr64 x colShift64) ⟨1, 0, 0, 0, 0, 0, 0, 0⟩ := by
  decide

/-- C7 (amended): `RotWord` rotates each bit-plane word right by
`row_shift` (not `col_shift`) bits; equivalently, the byte of the
round key at `(block, row, col)` after `rot_word` is the byte that was
at `(block, (row + 1) % 4, col)`, rotating the four bytes of each
column up by one row. -/
theorem rot_word_rotates_one_row (s : W8) (hb : s.Bounded 64)
    (block row col : Nat) (hblk : block < 4) (hr : row < 4) (hc : col < 4) :
    bsRotWord s = s.map (fun x => rotr64 x rowShift64) ∧
    bsGetByte (bsRotWord s) block row col
      = bsGetByte s block ((row + 1) % 4) col := by
  obtain ⟨h0, h1, h2, h3, h4, h5, h6, h7⟩ := hb
  refine ⟨rfl, ?_⟩
  have hidx : ∀ x, x < 2 ^ 64 →
      (rotr64 x rowShift64).testBit (bsBitIndex block row col)
        = x.testBit (bsBitIndex block ((row + 1) % 4) col) := by
    intro x hx
    have h1 : bsBitIndex block row col < 64 := by
      unfold bsBitIndex rowShift64 colShift64 numBlocks64 numBytes64
      omega
    rw [rotr64_testBit rowShift64 _ hx (by decide) (by decide) h1]
    congr 1
    unfold bsBitIndex rowShift64 colShift64 numBlocks64 numBytes64
    omega
  show bitsByte [(rotr64 s.w0 (1 * rowShift64)).testBit _,
    (rotr64 s.w1 (1 * rowShift64)).testBit _,
    (rotr64 s.w2 (1 * rowShift64)).testBit _,
    (rotr64 s.w3 (1 * rowShift64)).testBit _,
    (rotr64 s.w4 (1 * rowShift64)).testBit _,
    (rotr64 s.w5 (1 * rowShift64)).testBit _,
    (rotr64 s.w6 (1 * rowShift64)).testBit _,
    (rotr64 s.w7 (1 * rowShift64)).testBit _] = _
  rw [show (1 * rowShift64) = rowShift64 from by omega]
  rw [hidx s.w0 h0, hidx s.w1 h1, hidx s.w2 h2, hidx s.w3 h3,
      hidx s.w4 h4, hidx s.w5 h5, hidx s.w6 h6, hidx s.w7 h7]
  rfl

theorem rot_word_rotates_one_row_witness :
    W8.Bounded 64 ⟨1, 2, 3, 4, 5, 6, 7, 8⟩ ∧ (0 : Nat) < 4 ∧ (1 : Nat) < 4 ∧
    (2 : Nat) < 4 ∧
    bsGetByte (bsRotWord ⟨1, 2, 3, 4, 5, 6, 7, 8⟩) 0 1 2
      = bsGetByte ⟨1, 2, 3, 4, 5, 6, 7, 8⟩ 0 2 2 :=
  ⟨by decide, by decide, by decide, by decide,
   (rot_word_rotates_one_row ⟨1, 2, 3, 4, 5, 6, 7, 8⟩ (by decide) 0 1 2
     (by decide) (by decide) (by decide)).2⟩

/-! ### C8: `RoundKey::from_rc` -/

/-- C8 counterexample: `from_rc(1)` also stores the round constant in
byte `(row 0, col 1)` of block 0, which the claim says must be zero. -/
theorem from_rc_counterexample :
    ¬ (bsGetByte (roundKeyFromRc 1) 0 0 1 = 0) := by decide

/-- C8 (amended): `RoundKey::from_rc(rc)` stores `rc` in the first byte
of every column of every block (the whole first row), and every byte
outside row 0 is zero. -/
theorem from_rc_first_row (rc block row col : Nat) (hrc : rc < 256)
    (hblk : block < 4) (hr : row < 4) (hc : col < 4) :
    bsGetByte (roundKeyFromRc rc) block row col
      = if row = 0 then rc else 0 := by
  have hidx_lt : bsBitIndex block row col < 64 := by
    unfold bsBitIndex rowShift64 colShift64 numBlocks64 numBytes64
    omega
  have hidx16 : (bsBitIndex block row col < 16) = (row = 0) := by
    simp only [eq_iff_iff]
    unfold bsBitIndex rowShift64 colShift64 numBlocks64 numBytes64
    omega
  have hplane : ∀ i : Nat,
      ((rcBit rc i &&& firstRow64).testBit (bsBitIndex block row col))
        = (rc.testBit i && decide (row = 0)) := by
    intro i
    rw [Nat.testBit_and]
    have hrow : firstRow64.testBit (bsBitIndex block row col)
        = decide (row = 0) := by
      have he : firstRow64 = 2 ^ 16 - 1 := by decide
      rw [he, Nat.testBit_two_pow_sub_one]
      simp only [decide_eq_decide]
      rw [← hidx16]
    rw [hrow]
    unfold rcBit
    cases hbit : rc.testBit i with
    | false => simp
    | true =>
      simp only [if_true]
      rw [Nat.testBit_two_pow_sub_one]
      simp [hidx_lt]
  show bitsByte [(rcBit rc 0 &&& firstRow64).testBit _,
    (rcBit rc 1 &&& firstRow64).testBit _,
    (rcBit rc 2 &&& firstRow64).testBit _,
    (rcBit rc 3 &&& firstRow64).testBit _,
    (rcBit rc 4 &&& firstRow64).testBit _,
    (rcBit rc 5 &&& firstRow64).testBit _,
    (rcBit rc 6 &&& firstRow64).testBit _,
    (rcBit rc 7 &&& firstRow64).testBit _] = _
  rw [hplane 0, hplane 1, hplane 2, hplane 3, hplane 4, hplane 5,
      hplane 6, hplane 7]
  by_cases hrow0 : row = 0
  · simp only [hrow0, decide_True, Bool.and_true, if_true]
    exact bitsByte_byteBits rc hrc
  · simp only [hrow0, decide_False, Bool.and_false, if_false]
    rfl

theorem from_rc_first_row_witness :
    (0x1b : Nat) < 256 ∧
    bsGetByte (roundKeyFromRc 0x1b) 2 0 3 = 0x1b ∧
    bsGetByte (roundKeyFromRc 0x1b) 2 1 3 = 0 :=
  ⟨by decide,
   by
     have h := from_rc_first_row 0x1b 2 0 3 (by decide) (by decide)
       (by decide) (by decide)
     simpa using h,
   by
     have h := from_rc_first_row 0x1b 2 1 3 (by decide) (by decide)
       (by decide) (by decide)
     simpa using h⟩

theorem bsExpandStep_length (n : Nat) (rks : List W8) (i : Nat) :
    (bsExpandStep n rks i).length = rks.length := by
  unfold bsExpandStep bsWordSet
  exact List.length_set ..

theorem foldl_bsExpandStep_length (n : Nat) (l : List Nat)
    (init : List W8) :
    (l.foldl (bsExpandStep n) init).length = init.length := by
  induction l generalizing init with
  | nil => rfl
  | cons i t ih => rw [List.foldl_cons, ih, bsExpandStep_length]

theorem bsExpandKey_length (key : KeyV) :
    (bsExpandKey key).length = key.numRoundKeys := by
  unfold bsExpandKey
  rw [foldl_bsExpandStep_length]
  unfold bsInitRks
  simp

theorem refScheduleFromKey_asSlice (key : KeyV) :
    (refScheduleFromKey key).asSlice = refExpandKey key := by
  cases key <;> rfl

theorem bsScheduleFromKey_asSlice (key : KeyV) :
    (bsScheduleFromKey key).asSlice = bsExpandKey key := by
  cases key <;> rfl

theorem numRoundKeys_cases (key : KeyV) :
    key.numRoundKeys = 11 ∨ key.numRoundKeys = 13 ∨
      key.numRoundKeys = 15 := by
  cases key <;> simp [KeyV.numRoundKeys, KeyV.rounds]

/-- C10: the schedule built from any `Key` has exactly
`num_round_keys ∈ {11, 13, 15}` round keys (matching the variant), the
expansion loop preserves that length, and therefore the
`rounds == 11 || rounds == 13 || rounds == 15` assertion in
`Aes::encrypt` / `Aes::decrypt` succeeds on every state, for both the
reference and the bit-sliced backend: the block operations never panic
on that assertion. -/
theorem schedule_length_invariant (key : KeyV) :
    (refScheduleFromKey key).asSlice.length = key.numRoundKeys ∧
    (bsScheduleFromKey key).asSlice.length = key.numRoundKeys ∧
    (key.numRoundKeys = 11 ∨ key.numRoundKeys = 13 ∨
      key.numRoundKeys = 15) ∧
    (∀ s : List Nat,
      (aesEncrypt refOps (refScheduleFromKey key).asSlice s).isSome) ∧
    (∀ s : List Nat,
      (aesDecrypt refOps (refScheduleFromKey key).asSlice s).isSome) ∧
    (∀ s : W8, (aesEncrypt bsOps (bsScheduleFromKey key).asSlice s).isSome) ∧
    (∀ s : W8, (aesDecrypt bsOps (bsScheduleFromKey key).asSlice s).isSome)
    := by
  have h1 : (refScheduleFromKey key).asSlice.length = key.numRoundKeys := by
    rw [refScheduleFromKey_asSlice]
    exact refExpandKey_length key
  have h2 : (bsScheduleFromKey key).asSlice.length = key.numRoundKeys := by
    rw [bsScheduleFromKey_asSlice]
    exact bsExpandKey_length key
  have hnum := numRoundKeys_cases key
  have hlen1 : (refScheduleFromKey key).asSlice.length = 11 ∨
      (refScheduleFromKey key).asSlice.length = 13 ∨
      (refScheduleFromKey key).asSlice.length = 15 := by
    rw [h1]; exact hnum
  have hlen2 : (bsScheduleFromKey key).asSlice.length = 11 ∨
      (bsScheduleFromKey key).asSlice.length = 13 ∨
      (bsScheduleFromKey key).asSlice.length = 15 := by
    rw [h2]; exact hnum
  exact ⟨h1, h2, hnum,
    fun s => aesEncrypt_isSome refOps _ hlen1 s,
    fun s => aesDecrypt_isSome refOps _ hlen1 s,
    fun s => aesEncrypt_isSome bsOps _ hlen2 s,
    fun s => aesDecrypt_isSome bsOps _ hlen2 s⟩

/-! ### GF(2)-linear extension

All packing and mixing steps of the bit-sliced backend are linear over
GF(2): they commute with XOR.  Two such maps that agree on the
single-bit words agree on every bounded word; this is the workhorse for
relating word-level transforms to their byte-level meaning. -/

theorem xor_disjoint_add (a b n : Nat) (hb : b < 2 ^ n) :
    (2 ^ n * a) ^^^ b = 2 ^ n * a + b := by
  apply Nat.eq_of_testBit_eq
  intro i
  rw [Nat.testBit_xor, Nat.testBit_mul_pow_two_add a hb i]
  by_cases hc : i < n
  · have h1 : (2 ^ n * a).testBit i = false := by
      have : 2 ^ n * a = a <<< n := by
        rw [Nat.shiftLeft_eq, Nat.mul_comm]
      rw [this, Nat.testBit_shiftLeft]
      simp
      omega
    simp [h1, hc]
  · have h2 : b.testBit i = false :=
      testBit_eq_false_of_lt hb (by omega)
    have h3 : (2 ^ n * a).testBit i = a.testBit (i - n) := by
      have : 2 ^ n * a = a <<< n := by
        rw [Nat.shiftLeft_eq, Nat.mul_comm]
      rw [this, Nat.testBit_shiftLeft]
      simp
      omega
    simp [h2, h3, hc]

theorem linext_word {X : Type} (xorX : X → X → X) (w : Nat) (f g : Nat → X)
    (hf : ∀ a b : Nat, f (a ^^^ b) = xorX (f a) (f b))
    (hg : ∀ a b : Nat, g (a ^^^ b) = xorX (g a) (g b))
    (h0 : f 0 = g 0)
    (hbasis : ∀ k < w, f (2 ^ k) = g (2 ^ k)) :
    ∀ x < 2 ^ w, f x = g x := by
  suffices h : ∀ n, n ≤ w → ∀ x < 2 ^ n, f x = g x from
    fun x hx => h w (Nat.le_refl w) x hx
  intro n
  induction n with
  | zero =>
    intro _ x hx
    have hx0 : x = 0 := by omega
    rw [hx0]
    exact h0
  | succ n ih =>
    intro hn x hx
    rcases Nat.lt_or_ge x (2 ^ n) with hlt | hge
    · exact ih (by omega) x hlt
    · have hpow : (2 : Nat) ^ (n + 1) = 2 * 2 ^ n := by
        rw [Nat.pow_succ]
        ring
      have hdiv : x / 2 ^ n = 1 :=
        Nat.div_eq_of_lt_le (by omega) (by omega)
      have hmod : x % 2 ^ n < 2 ^ n :=
        Nat.mod_lt _ (Nat.pow_pos (by omega))
      have hx_eq : x = 2 ^ n ^^^ (x % 2 ^ n) := by
        have hd := Nat.div_add_mod x (2 ^ n)
        rw [hdiv, Nat.mul_one] at hd
        have := xor_disjoint_add 1 (x % 2 ^ n) n hmod
        rw [Nat.mul_one] at this
        omega
      rw [hx_eq, hf, hg, ih (by omega) (x % 2 ^ n) hmod,
        hbasis n (by omega)]

/-- Places `x` in word slot `j` of an otherwise-zero `Bitslice`. -/
def injW8 : Nat → Nat → W8
  | 0, x => ⟨x, 0, 0, 0, 0, 0, 0, 0⟩
  | 1, x => ⟨0, x, 0, 0, 0, 0, 0, 0⟩
  | 2, x => ⟨0, 0, x, 0, 0, 0, 0, 0⟩
  | 3, x => ⟨0, 0, 0, x, 0, 0, 0, 0⟩
  | 4, x => ⟨0, 0, 0, 0, x, 0, 0, 0⟩
  | 5, x => ⟨0, 0, 0, 0, 0, x, 0, 0⟩
  | 6, x => ⟨0, 0, 0, 0, 0, 0, x, 0⟩
  | _, x => ⟨0, 0, 0, 0, 0, 0, 0, x⟩

/-- The single-bit `Bitslice` basis states. -/
def basisW8 (j k : Nat) : W8 := injW8 j (2 ^ k)

theorem linext_w8 {X : Type} (xorX : X → X → X) (f g : W8 → X)
    (hf : ∀ s t, f (s.xor t) = xorX (f s) (f t))
    (hg : ∀ s t, g (s.xor t) = xorX (g s) (g t))
    (hbasis : ∀ j < 8, ∀ k < 64, f (basisW8 j k) = g (basisW8 j k))
    (h0 : f W8.zero = g W8.zero) :
    ∀ s, s.Bounded 64 → f s = g s := by
  have hslot : ∀ j, j < 8 → ∀ x, x < 2 ^ 64 →
      f (injW8 j x) = g (injW8 j x) := by
    intro j hj
    have hinj_xor : ∀ a b, injW8 j (a ^^^ b) = (injW8 j a).xor (injW8 j b) := by
      intro a b
      interval_cases j <;> simp [injW8, W8.xor, W8.zipWith]
    have hinj_zero : injW8 j 0 = W8.zero := by
      interval_cases j <;> rfl
    have ha1 : ∀ a b : Nat, f (injW8 j (a ^^^ b))
        = xorX (f (injW8 j a)) (f (injW8 j b)) := by
      intro a b
      rw [hinj_xor, hf]
    have ha2 : ∀ a b : Nat, g (injW8 j (a ^^^ b))
        = xorX (g (injW8 j a)) (g (injW8 j b)) := by
      intro a b
      rw [hinj_xor, hg]
    have ha3 : f (injW8 j 0) = g (injW8 j 0) := by
      rw [hinj_zero]
      exact h0
    have ha4 : ∀ k < 64, f (injW8 j (2 ^ k)) = g (injW8 j (2 ^ k)) :=
      fun k hk => hbasis j hj k hk
    intro x hx
    exact linext_word xorX 64 (fun x => f (injW8 j x))
      (fun x => g (injW8 j x)) ha1 ha2 ha3 ha4 x hx
  intro s hs
  obtain ⟨h0b, h1b, h2b, h3b, h4b, h5b, h6b, h7b⟩ := hs
  have hdec : s = (injW8 0 s.w0).xor ((injW8 1 s.w1).xor ((injW8 2 s.w2).xor
      ((injW8 3 s.w3).xor ((injW8 4 s.w4).xor ((injW8 5 s.w5).xor
      ((injW8 6 s.w6).xor (injW8 7 s.w7))))))) := by
    simp [injW8, W8.xor, W8.zipWith]
  rw [hdec, hf, hg, hf, hg, hf, hg, hf, hg, hf, hg, hf, hg, hf, hg,
    hslot 0 (by omega) _ h0b, hslot 1 (by omega) _ h1b,
    hslot 2 (by omega) _ h2b, hslot 3 (by omega) _ h3b,
    hslot 4 (by omega) _ h4b, hslot 5 (by omega) _ h5b,
    hslot 6 (by omega) _ h6b, hslot 7 (by omega) _ h7b]

/-! ## C3 groundwork: byte-level algebra of the reference backend -/

theorem shiftLeft_xor (a b n : Nat) :
    (a ^^^ b) <<< n = (a <<< n) ^^^ (b <<< n) := by
  apply Nat.eq_of_testBit_eq
  intro i
  simp [Nat.testBit_xor, Nat.testBit_shiftLeft]
  by_cases hc : n ≤ i <;> simp [hc]

theorem mod_two_pow_xor (a b n : Nat) :
    (a ^^^ b) % 2 ^ n = (a % 2 ^ n) ^^^ (b % 2 ^ n) := by
  apply Nat.eq_of_testBit_eq
  intro i
  simp [Nat.testBit_xor, Nat.testBit_mod_two_pow]
  by_cases hc : i < n <;> simp [hc]

/-- The multiplication loop is linear in its consumed operand. -/
theorem xor_xor_cancel_left (t a b : Nat) :
    (t ^^^ a) ^^^ (t ^^^ b) = a ^^^ b := by
  rw [Nat.xor_comm t a, Nat.xor_comm t b, xor_xor_cancel]

theorem gmulLoop_xor (k lhs : Nat) :
    ∀ x y, gmulLoop k lhs (x ^^^ y)
      = gmulLoop k lhs x ^^^ gmulLoop k lhs y := by
  induction k generalizing lhs with
  | zero => intro x y; simp [gmulLoop]
  | succ k ih =>
    intro x y
    show (if (x ^^^ y) % 2 = 1 then lhs else 0) ^^^
        gmulLoop k (xtime lhs) ((x ^^^ y) / 2)
      = ((if x % 2 = 1 then lhs else 0) ^^^ gmulLoop k (xtime lhs) (x / 2))
        ^^^ ((if y % 2 = 1 then lhs else 0) ^^^ gmulLoop k (xtime lhs) (y / 2))
    have hdiv : (x ^^^ y) / 2 = x / 2 ^^^ y / 2 := by
      have h1 : (x ^^^ y) >>> 1 = (x >>> 1) ^^^ (y >>> 1) := shiftRight_xor ..
      simpa [Nat.shiftRight_eq_div_pow] using h1
    have hm2 : (x ^^^ y) % 2 = (x % 2) ^^^ (y % 2) := by
      have := mod_two_pow_xor x y 1
      simpa using this
    rw [hdiv, ih, hm2]
    rcases Nat.mod_two_eq_zero_or_one x with hx | hx <;>
      rcases Nat.mod_two_eq_zero_or_one y with hy | hy <;>
      rw [hx, hy] <;> norm_num <;>
      (apply Nat.eq_of_testBit_eq
       intro i
       simp only [Nat.testBit_xor]
       cases lhs.testBit i <;>
         cases (gmulLoop k (xtime lhs) (x / 2)).testBit i <;>
         cases (gmulLoop k (xtime lhs) (y / 2)).testBit i <;> rfl)

theorem gmul_xor (c x y : Nat) : gmul c (x ^^^ y) = gmul c x ^^^ gmul c y :=
  gmulLoop_xor 8 c x y

theorem gmul_zero (c : Nat) : gmul c 0 = 0 := by
  show gmulLoop 8 c 0 = 0
  have h : ∀ k lhs, gmulLoop k lhs 0 = 0 := by
    intro k
    induction k with
    | zero => intro lhs; rfl
    | succ k ih =>
      intro lhs
      show (if (0 : Nat) % 2 = 1 then lhs else 0) ^^^
          gmulLoop k (xtime lhs) (0 / 2) = 0
      simp [ih]
  exact h 8 c
